import Mathlib

set_option linter.unusedVariables false

/-!
Verification development for the collision-detection and object-lifecycle
core of a small 2D scene engine.  The geometry side (`Engine` namespace)
embeds `src/src/engine/mesh.h`; the lifecycle side (`Lifecycle` namespace)
embeds `src/src/object.h`.  Machine doubles are modelled as real numbers.
-/

open scoped Classical

noncomputable section

namespace Engine

/-- Three-component vector of reals, modelling a `std::valarray<double>` of size 3. -/
@[ext] structure V3 where
  x : ℝ
  y : ℝ
  z : ℝ

instance : Zero V3 := ⟨⟨0, 0, 0⟩⟩

instance : Add V3 := ⟨fun a b => ⟨a.x + b.x, a.y + b.y, a.z + b.z⟩⟩

instance : Sub V3 := ⟨fun a b => ⟨a.x - b.x, a.y - b.y, a.z - b.z⟩⟩

/-- Scalar multiple of a vector, modelling `double * valarray`. -/
def V3.smul (c : ℝ) (v : V3) : V3 := ⟨c * v.x, c * v.y, c * v.z⟩

@[simp] theorem V3.zero_x : (0 : V3).x = 0 := rfl

@[simp] theorem V3.zero_y : (0 : V3).y = 0 := rfl

@[simp] theorem V3.zero_z : (0 : V3).z = 0 := rfl

@[simp] theorem V3.add_x (a b : V3) : (a + b).x = a.x + b.x := rfl

@[simp] theorem V3.add_y (a b : V3) : (a + b).y = a.y + b.y := rfl

@[simp] theorem V3.add_z (a b : V3) : (a + b).z = a.z + b.z := rfl

@[simp] theorem V3.sub_x (a b : V3) : (a - b).x = a.x - b.x := rfl

@[simp] theorem V3.sub_y (a b : V3) : (a - b).y = a.y - b.y := rfl

@[simp] theorem V3.sub_z (a b : V3) : (a - b).z = a.z - b.z := rfl

@[simp] theorem V3.smul_x (c : ℝ) (v : V3) : (V3.smul c v).x = c * v.x := rfl

@[simp] theorem V3.smul_y (c : ℝ) (v : V3) : (V3.smul c v).y = c * v.y := rfl

@[simp] theorem V3.smul_z (c : ℝ) (v : V3) : (V3.smul c v).z = c * v.z := rfl

/-- Embeds `Mesh::zero`: true iff every component of the vector is exactly zero. -/
def zero (v : V3) : Prop := v.x = 0 ∧ v.y = 0 ∧ v.z = 0

/-- Embeds `Mesh::dot`: `(ray_1 * ray_2).sum()` for 3-component valarrays. -/
def dot (a b : V3) : ℝ := a.x * b.x + a.y * b.y + a.z * b.z

/-- Embeds `Mesh::norm2`: `dot(ray, ray)`. -/
def norm2 (v : V3) : ℝ := dot v v

/-- Embeds `Mesh::norm`: `sqrt(norm2(ray))`. -/
def norm (v : V3) : ℝ := Real.sqrt (norm2 v)

/-- Embeds `Mesh::distance`: `norm(point_1 - point_2)`. -/
def distance (p q : V3) : ℝ := norm (p - q)

/-- Embeds `Mesh::clamp`: return `max_value` when above it, `min_value` when
below it, the value itself otherwise. -/
def clamp (value min_value max_value : ℝ) : ℝ :=
  if value > max_value then max_value
  else if value < min_value then min_value
  else value

/-- Embeds `Mesh::distanceRayToPoint`.  Returns the pair (distance, near
point); `near0` is the incoming value of the by-reference `near_point`
argument, which the source leaves untouched on the degenerate
(`length_pow == 0.0`) early return. -/
def distanceRayToPoint (ray_start ray_end point near0 : V3) (infinite : Bool) : ℝ × V3 :=
  let delta_ray := ray_end - ray_start
  let length_pow := norm2 delta_ray
  if length_pow = 0 then (distance point ray_start, near0)
  else
    let param0 := dot (point - ray_start) delta_ray / length_pow
    let param := if infinite then param0 else clamp param0 0 1
    let near_point := ray_start + V3.smul param delta_ray
    (distance point near_point, near_point)

theorem zero_of_v3_zero : zero (0 : V3) := ⟨rfl, rfl, rfl⟩

@[simp] theorem norm2_sub_self (s : V3) : norm2 (s - s) = 0 := by
  simp [norm2, dot]

/-- C8: the segment-projection routine `Mesh::distanceRayToPoint` is total on
degenerate input: for `start == end` it takes the guarded early return
(no division), yielding the distance from the query point to `start` and
leaving the near-point output untouched; in the non-degenerate case the
projection parameter `t = dot(point-start, end-start) / |end-start|^2` is
clamped to `[0,1]` exactly when the line is not treated as infinite, and the
routine returns the distance from the query point to the projected near point
`start + t*(end-start)`. -/
theorem distanceRayToPoint_total_and_projects :
    (∀ s p near0 inf, distanceRayToPoint s s p near0 inf = (distance p s, near0)) ∧
    (∀ s e p near0, norm2 (e - s) ≠ 0 →
      distanceRayToPoint s e p near0 false =
        (distance p (s + V3.smul (clamp (dot (p - s) (e - s) / norm2 (e - s)) 0 1) (e - s)),
         s + V3.smul (clamp (dot (p - s) (e - s) / norm2 (e - s)) 0 1) (e - s))) ∧
    (∀ s e p near0, norm2 (e - s) ≠ 0 →
      distanceRayToPoint s e p near0 true =
        (distance p (s + V3.smul (dot (p - s) (e - s) / norm2 (e - s)) (e - s)),
         s + V3.smul (dot (p - s) (e - s) / norm2 (e - s)) (e - s))) := by
  refine ⟨fun s p near0 inf => ?_, fun s e p near0 h => ?_, fun s e p near0 h => ?_⟩
  · simp [distanceRayToPoint]
  · simp [distanceRayToPoint, h]
  · simp [distanceRayToPoint, h]

/-- Embeds `std::atan2(y, x)` with ISO C semantics, transplanted to the reals
(`Polygon2D::getCollisionSpace` calls it on the speed components). -/
def atan2 (y x : ℝ) : ℝ :=
  if 0 < x then Real.arctan (y / x)
  else if x < 0 ∧ 0 ≤ y then Real.arctan (y / x) + Real.pi
  else if x < 0 then Real.arctan (y / x) - Real.pi
  else if 0 < y then Real.pi / 2
  else if y < 0 then -(Real.pi / 2)
  else 0

/-- Closed set of shape kinds of the engine: the base `Mesh`, `Rectangle2D`
(top-left position, width, height, orientation angle), `Polygon2D` (center,
radius, side count, orientation angle) and `Sphere2D`.  `Sphere2D` is a
`Polygon2D` with 100 sides and angle 0 whose only behavioural difference is
its type string, and the run-time dispatch accepts "polygon2d" and "sphere2d"
in the same branch, so it carries only center and radius here. -/
inductive Mesh where
  | base (position : V3)
  | rect (position : V3) (width height angle : ℝ)
  | poly (position : V3) (radius : ℝ) (sides : ℤ) (angle : ℝ)
  | sphere (position : V3) (radius : ℝ)

/-- Embeds the virtual `getType` discriminant strings used by the
double-dispatch in `detectCollision`. -/
def getType : Mesh → String
  | .base _ => "mesh"
  | .rect _ _ _ _ => "rectangle2d"
  | .poly _ _ _ _ => "polygon2d"
  | .sphere _ _ => "sphere2d"

/-- Embeds `Mesh::getPosition`. -/
def getPosition : Mesh → V3
  | .base p => p
  | .rect p _ _ _ => p
  | .poly p _ _ _ => p
  | .sphere p _ => p

/-- Top-left corner of a `Rectangle2D`: its stored position. -/
def rectTopLeft (p : V3) : V3 := p

/-- Embeds the `top_right` corner computed by `Rectangle2D::updatePositions`. -/
def rectTopRight (p : V3) (w a : ℝ) : V3 :=
  p + ⟨w * Real.cos a, w * Real.sin a, 0⟩

/-- Embeds the `delta_height` vector of `Rectangle2D::updatePositions`
(`height_angle = angle - DEG90`). -/
def rectDeltaHeight (h a : ℝ) : V3 :=
  ⟨h * Real.cos (a - Real.pi / 2), h * Real.sin (a - Real.pi / 2), 0⟩

/-- Embeds the `bottom_left` corner computed by `Rectangle2D::updatePositions`. -/
def rectBottomLeft (p : V3) (h a : ℝ) : V3 := p + rectDeltaHeight h a

/-- Embeds the `bottom_right` corner computed by `Rectangle2D::updatePositions`. -/
def rectBottomRight (p : V3) (w h a : ℝ) : V3 := rectTopRight p w a + rectDeltaHeight h a

/-- Embeds `Mesh::collisionSpheres`: distance between the two positions at
most the sum of the two radii. -/
def collisionSpheres (position_1 : V3) (radius_1 : ℝ) (position_2 : V3) (radius_2 : ℝ) : Prop :=
  distance position_1 position_2 ≤ radius_1 + radius_2

/-- Embeds the boolean result of `Mesh::collisionRaySphere` with the default
finite-segment mode: segment-to-center distance at most the radius.  The
by-reference near-point does not influence the boolean result. -/
def collisionRaySphere (ray_start ray_end circle_center : V3) (circle_radius : ℝ) : Prop :=
  (distanceRayToPoint ray_start ray_end circle_center 0 false).1 ≤ circle_radius

/-- Modelled from the spec: the definition of `Mesh::collisionPointRectangle2D`
lives in a translation unit that is absent from the sources (only its
declaration appears in the header).  Per the spec this test decides whether a
point lies inside the rectangle given by the four corners: the point must
decompose over the top-left corner with convex coefficients along the two edge
directions. -/
def collisionPointRectangle2D (point rect_top_left rect_bottom_left rect_bottom_right rect_top_right : V3) : Prop :=
  ∃ u v : ℝ, 0 ≤ u ∧ u ≤ 1 ∧ 0 ≤ v ∧ v ≤ 1 ∧
    point = rect_top_left + V3.smul u (rect_top_right - rect_top_left) +
      V3.smul v (rect_bottom_left - rect_top_left)

/-- Embeds the boolean result of `Mesh::collisionRectangleCircle2D`: the four
edge tests in source order, then the containment test.  The absent definition
of the containment helper is modelled from the spec as "the circle's center
lies inside the rectangle" (the header's call site scrambles the declared
argument order of `collisionPointRectangle2D`; the spec fixes the intended
semantics).  The near-point threading carries no information into the boolean
result and is not modelled. -/
def collisionRectangleCircle2D (rect_top_left rect_bottom_left rect_bottom_right rect_top_right circle_center : V3)
    (circle_radius : ℝ) : Prop :=
  collisionRaySphere rect_top_left rect_top_right circle_center circle_radius ∨
  collisionRaySphere rect_top_right rect_bottom_right circle_center circle_radius ∨
  collisionRaySphere rect_bottom_left rect_bottom_right circle_center circle_radius ∨
  collisionRaySphere rect_top_left rect_bottom_left circle_center circle_radius ∨
  collisionPointRectangle2D circle_center rect_top_left rect_bottom_left rect_bottom_right rect_top_right

/-- Modelled from the spec: two closed segments intersect iff they share a
point. -/
def segmentsIntersect (a b c d : V3) : Prop :=
  ∃ t s : ℝ, 0 ≤ t ∧ t ≤ 1 ∧ 0 ≤ s ∧ s ≤ 1 ∧
    a + V3.smul t (b - a) = c + V3.smul s (d - c)

/-- Embeds `Mesh::edgesRectangle2D`: the four sides of a rectangle in source
order. -/
def edgesRectangle2D (tl bl br tr : V3) : List (V3 × V3) :=
  [(tl, bl), (bl, br), (br, tr), (tr, tl)]

/-- Modelled from the spec: the definition of `Mesh::collisionRectangles2D`
lives in a translation unit that is absent from the sources.  Per the spec it
is true iff any edge of one rectangle intersects any edge of the other, or
either rectangle's reference point (its top-left corner) lies inside the
other.  The near-point output is left unspecified by the spec and is not
modelled. -/
def collisionRectangles2D (tl1 bl1 br1 tr1 tl2 bl2 br2 tr2 : V3) : Prop :=
  (∃ e1 ∈ edgesRectangle2D tl1 bl1 br1 tr1, ∃ e2 ∈ edgesRectangle2D tl2 bl2 br2 tr2,
    segmentsIntersect e1.1 e1.2 e2.1 e2.2) ∨
  collisionPointRectangle2D tl1 tl2 bl2 br2 tr2 ∨
  collisionPointRectangle2D tl2 tl1 bl1 br1 tr1

/-- The angle `std::atan2(speed[1], speed[0])` used by
`Polygon2D::getCollisionSpace`. -/
def sweptAngle (speed : V3) : ℝ := atan2 speed.y speed.x

/-- The `difference` vector of `Polygon2D::getCollisionSpace`: the top-left
reference corner of the swept rectangle sits one radius from the center, at
90 degrees from the velocity direction. -/
def sweptOffset (radius : ℝ) (speed : V3) : V3 :=
  ⟨radius * Real.cos (sweptAngle speed + Real.pi / 2),
   radius * Real.sin (sweptAngle speed + Real.pi / 2), 0⟩

/-- Embeds the virtual `Mesh::getCollisionSpace`: the base mesh and
rectangles return `nullptr`; `Polygon2D::getCollisionSpace` (inherited by
`Sphere2D`) builds the swept oriented rectangle
`Rectangle2D(position + difference, norm(speed), radius * 2, angle)`. -/
def getCollisionSpace : Mesh → V3 → Option Mesh
  | .poly p r _ _, speed =>
      some (.rect (p + sweptOffset r speed) (norm speed) (r * 2) (sweptAngle speed))
  | .sphere p r, speed =>
      some (.rect (p + sweptOffset r speed) (norm speed) (r * 2) (sweptAngle speed))
  | _, _ => none

/-- Center and radius of a shape accepted by the "polygon2d"/"sphere2d"
dispatch branch of `Polygon2D::detectCollision`. -/
def circleOf : Mesh → Option (V3 × ℝ)
  | .poly p r _ _ => some (p, r)
  | .sphere p r => some (p, r)
  | _ => none

/-- The explicit static cases of `Polygon2D::detectCollision`: against another
polygon/sphere the sphere test on offset centers; against a rectangle the
circle-against-rectangle test; no case otherwise. -/
def polygonStaticCase (p : V3) (r : ℝ) (other : Mesh) (my_offset other_offset : V3) : Prop :=
  match circleOf other with
  | some pr => collisionSpheres (my_offset + p) r (other_offset + pr.1) pr.2
  | none =>
    match other with
    | .rect p2 w2 h2 a2 =>
        collisionRectangleCircle2D (other_offset + rectTopLeft p2)
          (other_offset + rectBottomLeft p2 h2 a2)
          (other_offset + rectBottomRight p2 w2 h2 a2)
          (other_offset + rectTopRight p2 w2 a2)
          (my_offset + p) r
    | _ => False

/-- The explicit static narrow-phase case each override of `detectCollision`
runs before falling through to the base `Mesh::detectCollision`:
rectangle × rectangle for `Rectangle2D`, the polygon cases for
`Polygon2D`/`Sphere2D`, and nothing for the base mesh. -/
def staticCase : Mesh → Mesh → V3 → V3 → Prop
  | .rect p w h a, .rect p2 w2 h2 a2, o1, o2 =>
      collisionRectangles2D (o1 + rectTopLeft p) (o1 + rectBottomLeft p h a)
        (o1 + rectBottomRight p w h a) (o1 + rectTopRight p w a)
        (o2 + rectTopLeft p2) (o2 + rectBottomLeft p2 h2 a2)
        (o2 + rectBottomRight p2 w2 h2 a2) (o2 + rectTopRight p2 w2 a2)
  | .rect _ _ _ _, _, _, _ => False
  | .poly p r _ _, other, o1, o2 => polygonStaticCase p r other o1 o2
  | .sphere p r, other, o1, o2 => polygonStaticCase p r other o1 o2
  | .base _, _, _, _ => False

/-- Number of swept-space constructions a shape can still trigger: used as the
termination measure of `detect` (swept spaces are rectangles, which construct
no further spaces). -/
def spaceWeight : Mesh → ℕ
  | .poly _ _ _ _ => 1
  | .sphere _ _ => 1
  | _ => 0

theorem spaceWeight_getCollisionSpace {s : Mesh} {v : V3} {m : Mesh}
    (h : getCollisionSpace s v = some m) : spaceWeight s = 1 ∧ spaceWeight m = 0 := by
  cases s with
  | base p => simp [getCollisionSpace] at h
  | rect p w hh a => simp [getCollisionSpace] at h
  | poly p r n a =>
      simp only [getCollisionSpace, Option.some.injEq] at h
      exact ⟨rfl, by rw [← h]; rfl⟩
  | sphere p r =>
      simp only [getCollisionSpace, Option.some.injEq] at h
      exact ⟨rfl, by rw [← h]; rfl⟩

/-- Embeds the virtual double-dispatch entry point `detectCollision`
(`Mesh::detectCollision` plus the overrides in `Rectangle2D` and
`Polygon2D`), as the proposition "the call returns true".  In source order:
the caller's explicit static case; then the base implementation, namely the
continuous phase (guarded by "not both speeds zero": the mover's swept space
against the other shape, then against the other shape's swept space, the
nested calls keeping the current `try_inverse`); then, when the call is a
first (non-retried) invocation, one retry with the operands swapped and
retries disabled.  The resulting boolean is the inclusive disjunction of
these branches; the by-reference contact point never feeds back into any
branch condition.  Well-foundedness of this definition discharges the "single
level of swap prevents infinite recursion" part of the contract. -/
def detect (s1 s2 : Mesh) (o1 v1 o2 v2 : V3) (try_inverse : Bool) : Prop :=
  staticCase s1 s2 o1 o2 ∨
  ((¬ (zero v1 ∧ zero v2)) ∧
    ∃ my_space, ∃ _ : getCollisionSpace s1 v1 = some my_space,
      (detect my_space s2 o1 0 o2 v2 try_inverse ∨
        ∃ other_space, ∃ _ : getCollisionSpace s2 v2 = some other_space,
          detect my_space other_space o1 0 o2 0 try_inverse)) ∨
  (∃ _ : try_inverse = true, detect s2 s1 o2 v2 o1 v1 false)
termination_by ((if try_inverse then 1 else 0) * 4 + spaceWeight s1 + spaceWeight s2 : ℕ)
decreasing_by
  · obtain ⟨h1, h2⟩ := spaceWeight_getCollisionSpace ‹getCollisionSpace s1 v1 = some my_space›
    simp only [h1, h2]
    omega
  · obtain ⟨h1, h2⟩ := spaceWeight_getCollisionSpace ‹getCollisionSpace s1 v1 = some my_space›
    obtain ⟨h3, h4⟩ := spaceWeight_getCollisionSpace ‹getCollisionSpace s2 v2 = some other_space›
    simp only [h1, h2, h3, h4]
    omega
  · have ht : try_inverse = true := ‹try_inverse = true›
    subst ht
    simp
    omega

theorem detect_notry_static (s1 s2 : Mesh) (o1 o2 : V3) :
    detect s1 s2 o1 0 o2 0 false ↔ staticCase s1 s2 o1 o2 := by
  rw [detect.eq_def]
  have hz : zero (0 : V3) := zero_of_v3_zero
  simp [hz]

theorem detect_static (s1 s2 : Mesh) (o1 o2 : V3) (t : Bool) :
    detect s1 s2 o1 0 o2 0 t ↔
      (staticCase s1 s2 o1 o2 ∨ (t = true ∧ staticCase s2 s1 o2 o1)) := by
  rw [detect.eq_def]
  have hz : zero (0 : V3) := zero_of_v3_zero
  simp [hz, detect_notry_static, exists_prop]

/-- C1 (amended): with both velocities zero, collision detection is symmetric
for every supported pair of shape kinds and all offsets, because the
narrow-phase miss triggers exactly one retry with the operands swapped and
retries disabled, making the result the disjunction of the two static cases.
(With a nonzero velocity the continuous phase breaks symmetry; see the
counterexample.) -/
theorem detect_symmetric_static :
    ∀ s1 s2 : Mesh, ∀ o1 o2 : V3,
      (detect s1 s2 o1 0 o2 0 true ↔ detect s2 s1 o2 0 o1 0 true) := by
  intro s1 s2 o1 o2
  rw [detect_static, detect_static]
  tauto

theorem sweptAngle_alignment (v : V3) :
    v.x * Real.sin (sweptAngle v) = v.y * Real.cos (sweptAngle v) ∧
    0 ≤ v.x * Real.cos (sweptAngle v) + v.y * Real.sin (sweptAngle v) := by
  obtain ⟨x, y, z⟩ := v
  show x * Real.sin (atan2 y x) = y * Real.cos (atan2 y x) ∧
    0 ≤ x * Real.cos (atan2 y x) + y * Real.sin (atan2 y x)
  unfold atan2
  split_ifs with h1 h2 h3 h4 h5
  · have hs : 0 < Real.sqrt (1 + (y / x) ^ 2) := Real.sqrt_pos.mpr (by positivity)
    rw [Real.sin_arctan, Real.cos_arctan]
    constructor
    · field_simp
      ring
    · have key : x * (1 / Real.sqrt (1 + (y / x) ^ 2)) +
          y * (y / x / Real.sqrt (1 + (y / x) ^ 2)) =
          (x ^ 2 + y ^ 2) / (x * Real.sqrt (1 + (y / x) ^ 2)) := by
        field_simp
        ring
      rw [key]
      exact div_nonneg (by positivity) (le_of_lt (mul_pos h1 hs))
  · obtain ⟨hx, hy⟩ := h2
    have hs : 0 < Real.sqrt (1 + (y / x) ^ 2) := Real.sqrt_pos.mpr (by positivity)
    have hxne : x ≠ 0 := ne_of_lt hx
    rw [Real.sin_add_pi, Real.cos_add_pi, Real.sin_arctan, Real.cos_arctan]
    constructor
    · field_simp
      ring
    · have key : x * -(1 / Real.sqrt (1 + (y / x) ^ 2)) +
          y * -(y / x / Real.sqrt (1 + (y / x) ^ 2)) =
          (x ^ 2 + y ^ 2) / (-x * Real.sqrt (1 + (y / x) ^ 2)) := by
        field_simp
        ring
      rw [key]
      exact div_nonneg (by positivity) (le_of_lt (mul_pos (by linarith) hs))
  · have hs : 0 < Real.sqrt (1 + (y / x) ^ 2) := Real.sqrt_pos.mpr (by positivity)
    have hxne : x ≠ 0 := ne_of_lt h3
    rw [Real.sin_sub_pi, Real.cos_sub_pi, Real.sin_arctan, Real.cos_arctan]
    constructor
    · field_simp
      ring
    · have key : x * -(1 / Real.sqrt (1 + (y / x) ^ 2)) +
          y * -(y / x / Real.sqrt (1 + (y / x) ^ 2)) =
          (x ^ 2 + y ^ 2) / (-x * Real.sqrt (1 + (y / x) ^ 2)) := by
        field_simp
        ring
      rw [key]
      exact div_nonneg (by positivity) (le_of_lt (mul_pos (by linarith) hs))
  · have hx0 : x = 0 := by
      by_contra hne
      rcases lt_or_gt_of_ne hne with hlt | hgt
      · exact h2 ⟨hlt, le_of_lt h4⟩
      · exact h1 hgt
    rw [Real.sin_pi_div_two, Real.cos_pi_div_two, hx0]
    constructor
    · ring
    · nlinarith
  · have hx0 : x = 0 := by
      by_contra hne
      rcases lt_or_gt_of_ne hne with hlt | hgt
      · exact h3 hlt
      · exact h1 hgt
    rw [hx0]
    simp only [Real.sin_neg, Real.cos_neg, Real.sin_pi_div_two, Real.cos_pi_div_two]
    constructor
    · ring
    · nlinarith
  · have hx0 : x = 0 := by
      by_contra hne
      rcases lt_or_gt_of_ne hne with hlt | hgt
      · exact h3 hlt
      · exact h1 hgt
    have hy0 : y = 0 := le_antisymm (not_lt.mp h4) (not_lt.mp h5)
    rw [hx0, hy0, Real.sin_zero, Real.cos_zero]
    constructor
    · ring
    · nlinarith

theorem norm_sweptOffset (r : ℝ) (v : V3) : norm (sweptOffset r v) = |r| := by
  unfold norm norm2 dot sweptOffset
  simp only []
  have key : r * Real.cos (sweptAngle v + Real.pi / 2) * (r * Real.cos (sweptAngle v + Real.pi / 2)) +
      r * Real.sin (sweptAngle v + Real.pi / 2) * (r * Real.sin (sweptAngle v + Real.pi / 2)) +
      (0 : ℝ) * 0 =
      r ^ 2 * (Real.sin (sweptAngle v + Real.pi / 2) ^ 2 + Real.cos (sweptAngle v + Real.pi / 2) ^ 2) := by
    ring
  rw [key, Real.sin_sq_add_cos_sq, mul_one, Real.sqrt_sq_eq_abs]

theorem dot_sweptOffset (r : ℝ) (v : V3) : dot (sweptOffset r v) v = 0 := by
  have h := (sweptAngle_alignment v).1
  unfold dot sweptOffset
  simp only [Real.cos_add_pi_div_two, Real.sin_add_pi_div_two]
  linear_combination (-r) * h

/-- C6: the continuous phase is attempted iff at least one of the two
velocity vectors is not exactly the zero vector (the guard in
`Mesh::detectCollision` is the negation of "both speeds are component-wise
zero"); when both speeds are zero `detect` reduces to the static cases alone;
and the swept bounding shape built by a polygonal/circular mover is an
oriented rectangle whose length (width field) is the velocity magnitude,
whose width (height field) is twice the shape's radius, whose angle is the
planar direction of the velocity (same planar line, non-negative planar dot
product) and whose reference corner is offset perpendicular to the velocity
by one radius from the shape's center. -/
theorem continuous_gate_and_swept_shape :
    (∀ v1 v2 : V3, (¬ (zero v1 ∧ zero v2)) ↔ (¬ zero v1 ∨ ¬ zero v2)) ∧
    (∀ s1 s2 : Mesh, ∀ o1 o2 : V3, ∀ t : Bool,
      detect s1 s2 o1 0 o2 0 t ↔ (staticCase s1 s2 o1 o2 ∨ (t = true ∧ staticCase s2 s1 o2 o1))) ∧
    (∀ p : V3, ∀ r : ℝ, ∀ sides : ℤ, ∀ a : ℝ, ∀ v : V3,
      getCollisionSpace (Mesh.poly p r sides a) v =
        some (Mesh.rect (p + sweptOffset r v) (norm v) (r * 2) (sweptAngle v))) ∧
    (∀ p : V3, ∀ r : ℝ, ∀ v : V3,
      getCollisionSpace (Mesh.sphere p r) v =
        some (Mesh.rect (p + sweptOffset r v) (norm v) (r * 2) (sweptAngle v))) ∧
    (∀ r : ℝ, ∀ v : V3, norm (sweptOffset r v) = |r|) ∧
    (∀ r : ℝ, ∀ v : V3, dot (sweptOffset r v) v = 0) ∧
    (∀ v : V3, v.x * Real.sin (sweptAngle v) = v.y * Real.cos (sweptAngle v) ∧
      0 ≤ v.x * Real.cos (sweptAngle v) + v.y * Real.sin (sweptAngle v)) := by
  refine ⟨fun v1 v2 => not_and_or, fun s1 s2 o1 o2 t => detect_static s1 s2 o1 o2 t,
    fun p r sides a v => rfl, fun p r v => rfl,
    norm_sweptOffset, dot_sweptOffset, sweptAngle_alignment⟩

@[simp] theorem V3.zero_add (v : V3) : (0 : V3) + v = v := by
  ext <;> simp

theorem distanceRayToPoint_eval (s e p near0 : V3) (h : norm2 (e - s) ≠ 0) :
    (distanceRayToPoint s e p near0 false).1 =
      distance p (s + V3.smul (clamp (dot (p - s) (e - s) / norm2 (e - s)) 0 1) (e - s)) := by
  simp [distanceRayToPoint, h]

theorem not_sqrt_le {x y : ℝ} (hy : 0 ≤ y) (h : y ^ 2 < x) : ¬ Real.sqrt x ≤ y :=
  not_le.mpr ((Real.lt_sqrt hy).mpr h)

theorem sqrt_le_of_sq {x y : ℝ} (hy : 0 ≤ y) (h : x ≤ y ^ 2) : Real.sqrt x ≤ y := by
  calc Real.sqrt x ≤ Real.sqrt (y ^ 2) := Real.sqrt_le_sqrt h
  _ = y := Real.sqrt_sq hy

/-- First mover of the C1 counterexample: a unit-radius polygon at the origin. -/
def polyA : Mesh := .poly ⟨0, 0, 0⟩ 1 5 0

/-- Second mover of the C1 counterexample: a unit-radius polygon at
`(5, 3/2, 0)`. -/
def polyB : Mesh := .poly ⟨5, 3/2, 0⟩ 1 5 0

/-- Velocity of `polyA`: along the positive x axis. -/
def velA : V3 := ⟨10, 0, 0⟩

/-- Velocity of `polyB`: along the positive y axis. -/
def velB : V3 := ⟨0, 10, 0⟩

/-- The swept rectangle `polyA` builds for `velA`. -/
def rectSA : Mesh := .rect ⟨0, 1, 0⟩ 10 2 0

/-- The swept rectangle `polyB` builds for `velB`. -/
def rectSB : Mesh := .rect ⟨4, 3/2, 0⟩ 10 2 (Real.pi / 2)

theorem sweptAngle_velA : sweptAngle velA = 0 := by
  show atan2 0 10 = 0
  unfold atan2
  rw [if_pos (by norm_num : (0:ℝ) < 10)]
  norm_num

theorem sweptAngle_velB : sweptAngle velB = Real.pi / 2 := by
  show atan2 10 0 = Real.pi / 2
  unfold atan2
  rw [if_neg (by norm_num), if_neg (by norm_num), if_neg (by norm_num),
    if_pos (by norm_num : (0:ℝ) < 10)]

theorem sweptOffset_velA : sweptOffset 1 velA = ⟨0, 1, 0⟩ := by
  unfold sweptOffset
  rw [sweptAngle_velA]
  simp [Real.cos_pi_div_two, Real.sin_pi_div_two]

theorem sweptOffset_velB : sweptOffset 1 velB = ⟨-1, 0, 0⟩ := by
  unfold sweptOffset
  rw [sweptAngle_velB]
  have h : Real.pi / 2 + Real.pi / 2 = Real.pi := by ring
  rw [h, Real.cos_pi, Real.sin_pi]
  simp

theorem norm_velA : norm velA = 10 := by
  have h2 : norm2 velA = 100 := by norm_num [norm2, dot, velA]
  rw [norm, h2, show (100:ℝ) = 10 ^ 2 by norm_num, Real.sqrt_sq (by norm_num : (0:ℝ) ≤ 10)]

theorem norm_velB : norm velB = 10 := by
  have h2 : norm2 velB = 100 := by norm_num [norm2, dot, velB]
  rw [norm, h2, show (100:ℝ) = 10 ^ 2 by norm_num, Real.sqrt_sq (by norm_num : (0:ℝ) ≤ 10)]

theorem gcsA : getCollisionSpace polyA velA = some rectSA := by
  show some (Mesh.rect ((⟨0, 0, 0⟩ : V3) + sweptOffset 1 velA) (norm velA) (1 * 2) (sweptAngle velA)) =
    some rectSA
  rw [sweptOffset_velA, norm_velA, sweptAngle_velA]
  unfold rectSA
  norm_num
  ext <;> norm_num

theorem gcsB : getCollisionSpace polyB velB = some rectSB := by
  show some (Mesh.rect ((⟨5, 3/2, 0⟩ : V3) + sweptOffset 1 velB) (norm velB) (1 * 2) (sweptAngle velB)) =
    some rectSB
  rw [sweptOffset_velB, norm_velB, sweptAngle_velB]
  unfold rectSB
  norm_num
  ext <;> norm_num

theorem not_zero_velA : ¬ (zero velA ∧ zero velB) := by
  rintro ⟨hA, -⟩
  have h10 : (10:ℝ) = 0 := hA.1
  norm_num at h10

theorem cornersSA :
    rectTopRight ⟨0, 1, 0⟩ 10 0 = ⟨10, 1, 0⟩ ∧
    rectBottomLeft ⟨0, 1, 0⟩ 2 0 = ⟨0, -1, 0⟩ ∧
    rectBottomRight ⟨0, 1, 0⟩ 10 2 0 = ⟨10, -1, 0⟩ := by
  unfold rectBottomRight rectBottomLeft rectTopRight rectDeltaHeight
  norm_num [Real.cos_pi_div_two, Real.sin_pi_div_two]
  refine ⟨?_, ?_, ?_⟩ <;> ext <;> norm_num

theorem cornersSB :
    rectTopRight ⟨4, 3/2, 0⟩ 10 (Real.pi / 2) = ⟨4, 23/2, 0⟩ ∧
    rectBottomLeft ⟨4, 3/2, 0⟩ 2 (Real.pi / 2) = ⟨6, 3/2, 0⟩ ∧
    rectBottomRight ⟨4, 3/2, 0⟩ 10 2 (Real.pi / 2) = ⟨6, 23/2, 0⟩ := by
  unfold rectBottomRight rectBottomLeft rectTopRight rectDeltaHeight
  norm_num [Real.cos_pi_div_two, Real.sin_pi_div_two]
  refine ⟨?_, ?_, ?_⟩ <;> ext <;> norm_num

theorem staticCase_polyB_rectSA :
    staticCase polyB rectSA 0 0 =
      collisionRectangleCircle2D ⟨0, 1, 0⟩ ⟨0, -1, 0⟩ ⟨10, -1, 0⟩ ⟨10, 1, 0⟩ ⟨5, 3/2, 0⟩ 1 := by
  simp only [polyB, rectSA, staticCase, polygonStaticCase, circleOf, rectTopLeft, V3.zero_add]
  rw [cornersSA.1, cornersSA.2.1, cornersSA.2.2]

theorem staticCase_polyA_rectSB :
    staticCase polyA rectSB 0 0 =
      collisionRectangleCircle2D ⟨4, 3/2, 0⟩ ⟨6, 3/2, 0⟩ ⟨6, 23/2, 0⟩ ⟨4, 23/2, 0⟩ ⟨0, 0, 0⟩ 1 := by
  simp only [polyA, rectSB, staticCase, polygonStaticCase, circleOf, rectTopLeft, V3.zero_add]
  rw [cornersSB.1, cornersSB.2.1, cornersSB.2.2]

theorem staticCase_rectSA_rectSB :
    staticCase rectSA rectSB 0 0 =
      collisionRectangles2D ⟨0, 1, 0⟩ ⟨0, -1, 0⟩ ⟨10, -1, 0⟩ ⟨10, 1, 0⟩
        ⟨4, 3/2, 0⟩ ⟨6, 3/2, 0⟩ ⟨6, 23/2, 0⟩ ⟨4, 23/2, 0⟩ := by
  simp only [rectSA, rectSB, staticCase, rectTopLeft, V3.zero_add]
  rw [cornersSA.1, cornersSA.2.1, cornersSA.2.2, cornersSB.1, cornersSB.2.1, cornersSB.2.2]

theorem staticCase_rectSB_rectSA :
    staticCase rectSB rectSA 0 0 =
      collisionRectangles2D ⟨4, 3/2, 0⟩ ⟨6, 3/2, 0⟩ ⟨6, 23/2, 0⟩ ⟨4, 23/2, 0⟩
        ⟨0, 1, 0⟩ ⟨0, -1, 0⟩ ⟨10, -1, 0⟩ ⟨10, 1, 0⟩ := by
  simp only [rectSA, rectSB, staticCase, rectTopLeft, V3.zero_add]
  rw [cornersSA.1, cornersSA.2.1, cornersSA.2.2, cornersSB.1, cornersSB.2.1, cornersSB.2.2]

theorem notRR_SA_SB :
    ¬ collisionRectangles2D ⟨0, 1, 0⟩ ⟨0, -1, 0⟩ ⟨10, -1, 0⟩ ⟨10, 1, 0⟩
      ⟨4, 3/2, 0⟩ ⟨6, 3/2, 0⟩ ⟨6, 23/2, 0⟩ ⟨4, 23/2, 0⟩ := by
  rintro (⟨e1, he1, e2, he2, hseg⟩ | hin | hin)
  · simp only [edgesRectangle2D, List.mem_cons, List.not_mem_nil, or_false] at he1 he2
    rcases he1 with rfl | rfl | rfl | rfl <;> rcases he2 with rfl | rfl | rfl | rfl <;>
      (obtain ⟨t, s, ht0, ht1, hs0, hs1, heq⟩ := hseg) <;>
      (have hx := congrArg V3.x heq) <;> (have hy := congrArg V3.y heq) <;>
      simp only [V3.add_x, V3.add_y, V3.smul_x, V3.smul_y, V3.sub_x, V3.sub_y] at hx hy <;>
      linarith
  · obtain ⟨u, v, hu0, hu1, hv0, hv1, heq⟩ := hin
    have hx := congrArg V3.x heq
    simp only [V3.add_x, V3.smul_x, V3.sub_x] at hx
    linarith
  · obtain ⟨u, v, hu0, hu1, hv0, hv1, heq⟩ := hin
    have hy := congrArg V3.y heq
    simp only [V3.add_y, V3.smul_y, V3.sub_y] at hy
    linarith

theorem segmentsIntersect_comm (a b c d : V3) :
    segmentsIntersect a b c d ↔ segmentsIntersect c d a b := by
  constructor <;> rintro ⟨t, s, ht0, ht1, hs0, hs1, heq⟩ <;>
    exact ⟨s, t, hs0, hs1, ht0, ht1, heq.symm⟩

theorem collisionRectangles2D_comm (tl1 bl1 br1 tr1 tl2 bl2 br2 tr2 : V3) :
    collisionRectangles2D tl1 bl1 br1 tr1 tl2 bl2 br2 tr2 ↔
      collisionRectangles2D tl2 bl2 br2 tr2 tl1 bl1 br1 tr1 := by
  unfold collisionRectangles2D
  constructor
  · rintro (⟨e1, he1, e2, he2, hseg⟩ | hin | hin)
    · exact Or.inl ⟨e2, he2, e1, he1, (segmentsIntersect_comm _ _ _ _).mp hseg⟩
    · exact Or.inr (Or.inr hin)
    · exact Or.inr (Or.inl hin)
  · rintro (⟨e1, he1, e2, he2, hseg⟩ | hin | hin)
    · exact Or.inl ⟨e2, he2, e1, he1, (segmentsIntersect_comm _ _ _ _).mp hseg⟩
    · exact Or.inr (Or.inr hin)
    · exact Or.inr (Or.inl hin)

theorem notRR_SB_SA :
    ¬ collisionRectangles2D ⟨4, 3/2, 0⟩ ⟨6, 3/2, 0⟩ ⟨6, 23/2, 0⟩ ⟨4, 23/2, 0⟩
      ⟨0, 1, 0⟩ ⟨0, -1, 0⟩ ⟨10, -1, 0⟩ ⟨10, 1, 0⟩ := by
  rw [collisionRectangles2D_comm]
  exact notRR_SA_SB

theorem notPR_A_SB :
    ¬ collisionRectangleCircle2D ⟨4, 3/2, 0⟩ ⟨6, 3/2, 0⟩ ⟨6, 23/2, 0⟩ ⟨4, 23/2, 0⟩ ⟨0, 0, 0⟩ 1 := by
  rintro (h | h | h | h | h)
  · revert h
    unfold collisionRaySphere
    rw [distanceRayToPoint_eval _ _ _ _ (by norm_num [norm2, dot])]
    have hc : clamp (dot ((⟨0,0,0⟩ : V3) - ⟨4, 3/2, 0⟩) ((⟨4, 23/2, 0⟩ : V3) - ⟨4, 3/2, 0⟩) /
        norm2 ((⟨4, 23/2, 0⟩ : V3) - ⟨4, 3/2, 0⟩)) 0 1 = 0 := by
      rw [show dot ((⟨0,0,0⟩ : V3) - ⟨4, 3/2, 0⟩) ((⟨4, 23/2, 0⟩ : V3) - ⟨4, 3/2, 0⟩) /
        norm2 ((⟨4, 23/2, 0⟩ : V3) - ⟨4, 3/2, 0⟩) = -(3/20) by norm_num [norm2, dot], clamp]
      norm_num
    rw [hc, show distance ⟨0,0,0⟩ ((⟨4, 3/2, 0⟩ : V3) +
        V3.smul 0 ((⟨4, 23/2, 0⟩ : V3) - ⟨4, 3/2, 0⟩)) = Real.sqrt (73/4) by
      unfold distance norm
      congr 1
      norm_num [norm2, dot]]
    exact not_sqrt_le (by norm_num) (by norm_num)
  · revert h
    unfold collisionRaySphere
    rw [distanceRayToPoint_eval _ _ _ _ (by norm_num [norm2, dot])]
    have hc : clamp (dot ((⟨0,0,0⟩ : V3) - ⟨4, 23/2, 0⟩) ((⟨6, 23/2, 0⟩ : V3) - ⟨4, 23/2, 0⟩) /
        norm2 ((⟨6, 23/2, 0⟩ : V3) - ⟨4, 23/2, 0⟩)) 0 1 = 0 := by
      rw [show dot ((⟨0,0,0⟩ : V3) - ⟨4, 23/2, 0⟩) ((⟨6, 23/2, 0⟩ : V3) - ⟨4, 23/2, 0⟩) /
        norm2 ((⟨6, 23/2, 0⟩ : V3) - ⟨4, 23/2, 0⟩) = -2 by norm_num [norm2, dot], clamp]
      norm_num
    rw [hc, show distance ⟨0,0,0⟩ ((⟨4, 23/2, 0⟩ : V3) +
        V3.smul 0 ((⟨6, 23/2, 0⟩ : V3) - ⟨4, 23/2, 0⟩)) = Real.sqrt (593/4) by
      unfold distance norm
      congr 1
      norm_num [norm2, dot]]
    exact not_sqrt_le (by norm_num) (by norm_num)
  · revert h
    unfold collisionRaySphere
    rw [distanceRayToPoint_eval _ _ _ _ (by norm_num [norm2, dot])]
    have hc : clamp (dot ((⟨0,0,0⟩ : V3) - ⟨6, 3/2, 0⟩) ((⟨6, 23/2, 0⟩ : V3) - ⟨6, 3/2, 0⟩) /
        norm2 ((⟨6, 23/2, 0⟩ : V3) - ⟨6, 3/2, 0⟩)) 0 1 = 0 := by
      rw [show dot ((⟨0,0,0⟩ : V3) - ⟨6, 3/2, 0⟩) ((⟨6, 23/2, 0⟩ : V3) - ⟨6, 3/2, 0⟩) /
        norm2 ((⟨6, 23/2, 0⟩ : V3) - ⟨6, 3/2, 0⟩) = -(3/20) by norm_num [norm2, dot], clamp]
      norm_num
    rw [hc, show distance ⟨0,0,0⟩ ((⟨6, 3/2, 0⟩ : V3) +
        V3.smul 0 ((⟨6, 23/2, 0⟩ : V3) - ⟨6, 3/2, 0⟩)) = Real.sqrt (153/4) by
      unfold distance norm
      congr 1
      norm_num [norm2, dot]]
    exact not_sqrt_le (by norm_num) (by norm_num)
  · revert h
    unfold collisionRaySphere
    rw [distanceRayToPoint_eval _ _ _ _ (by norm_num [norm2, dot])]
    have hc : clamp (dot ((⟨0,0,0⟩ : V3) - ⟨4, 3/2, 0⟩) ((⟨6, 3/2, 0⟩ : V3) - ⟨4, 3/2, 0⟩) /
        norm2 ((⟨6, 3/2, 0⟩ : V3) - ⟨4, 3/2, 0⟩)) 0 1 = 0 := by
      rw [show dot ((⟨0,0,0⟩ : V3) - ⟨4, 3/2, 0⟩) ((⟨6, 3/2, 0⟩ : V3) - ⟨4, 3/2, 0⟩) /
        norm2 ((⟨6, 3/2, 0⟩ : V3) - ⟨4, 3/2, 0⟩) = -2 by norm_num [norm2, dot], clamp]
      norm_num
    rw [hc, show distance ⟨0,0,0⟩ ((⟨4, 3/2, 0⟩ : V3) +
        V3.smul 0 ((⟨6, 3/2, 0⟩ : V3) - ⟨4, 3/2, 0⟩)) = Real.sqrt (73/4) by
      unfold distance norm
      congr 1
      norm_num [norm2, dot]]
    exact not_sqrt_le (by norm_num) (by norm_num)
  · obtain ⟨u, v, hu0, hu1, hv0, hv1, heq⟩ := h
    have hx := congrArg V3.x heq
    simp only [V3.add_x, V3.smul_x, V3.sub_x] at hx
    linarith

theorem posPR_B_SA :
    collisionRectangleCircle2D ⟨0, 1, 0⟩ ⟨0, -1, 0⟩ ⟨10, -1, 0⟩ ⟨10, 1, 0⟩ ⟨5, 3/2, 0⟩ 1 := by
  refine Or.inl ?_
  unfold collisionRaySphere
  rw [distanceRayToPoint_eval _ _ _ _ (by norm_num [norm2, dot])]
  have hc : clamp (dot ((⟨5, 3/2, 0⟩ : V3) - ⟨0, 1, 0⟩) ((⟨10, 1, 0⟩ : V3) - ⟨0, 1, 0⟩) /
      norm2 ((⟨10, 1, 0⟩ : V3) - ⟨0, 1, 0⟩)) 0 1 = 1/2 := by
    rw [show dot ((⟨5, 3/2, 0⟩ : V3) - ⟨0, 1, 0⟩) ((⟨10, 1, 0⟩ : V3) - ⟨0, 1, 0⟩) /
      norm2 ((⟨10, 1, 0⟩ : V3) - ⟨0, 1, 0⟩) = 1/2 by norm_num [norm2, dot], clamp]
    norm_num
  rw [hc, show distance ⟨5, 3/2, 0⟩ ((⟨0, 1, 0⟩ : V3) +
      V3.smul (1/2) ((⟨10, 1, 0⟩ : V3) - ⟨0, 1, 0⟩)) = Real.sqrt (1/4) by
    unfold distance norm
    congr 1
    norm_num [norm2, dot]]
  exact sqrt_le_of_sq (by norm_num) (by norm_num)

theorem notPP_BA : ¬ collisionSpheres ⟨5, 3/2, 0⟩ 1 ⟨0, 0, 0⟩ 1 := by
  unfold collisionSpheres distance norm
  rw [show norm2 ((⟨5, 3/2, 0⟩ : V3) - ⟨0, 0, 0⟩) = 109/4 by norm_num [norm2, dot]]
  exact not_sqrt_le (by norm_num) (by norm_num)

theorem notPP_AB : ¬ collisionSpheres ⟨0, 0, 0⟩ 1 ⟨5, 3/2, 0⟩ 1 := by
  unfold collisionSpheres distance norm
  rw [show norm2 ((⟨0, 0, 0⟩ : V3) - ⟨5, 3/2, 0⟩) = 109/4 by norm_num [norm2, dot]]
  exact not_sqrt_le (by norm_num) (by norm_num)

theorem detect_AB_true : detect polyA polyB 0 velA 0 velB true := by
  rw [detect.eq_def]
  refine Or.inr (Or.inl ⟨not_zero_velA, rectSA, gcsA, Or.inl ?_⟩)
  rw [detect.eq_def]
  refine Or.inr (Or.inr ⟨rfl, ?_⟩)
  rw [detect.eq_def]
  refine Or.inl ?_
  rw [staticCase_polyB_rectSA]
  exact posPR_B_SA

theorem notDetect_SA_SB_notry : ¬ detect rectSA rectSB 0 0 0 0 false := by
  rw [detect_notry_static, staticCase_rectSA_rectSB]
  exact notRR_SA_SB

theorem notDetect_SB_SA_try : ¬ detect rectSB rectSA 0 0 0 0 true := by
  rw [detect_static]
  rintro (h | ⟨-, h⟩)
  · rw [staticCase_rectSB_rectSA] at h
    exact notRR_SB_SA h
  · rw [staticCase_rectSA_rectSB] at h
    exact notRR_SA_SB h

theorem notDetect_A_SB_notry : ¬ detect polyA rectSB 0 velA 0 0 false := by
  rw [detect.eq_def]
  rintro (h | ⟨-, ms, hms, hrest⟩ | ⟨hfalse, -⟩)
  · rw [staticCase_polyA_rectSB] at h
    exact notPR_A_SB h
  · rw [gcsA] at hms
    injection hms with hms
    subst hms
    rcases hrest with h | ⟨os, hos, h⟩
    · exact notDetect_SA_SB_notry h
    · simp [getCollisionSpace, rectSB] at hos
  · exact Bool.false_ne_true hfalse

theorem notDetect_SB_A_try : ¬ detect rectSB polyA 0 0 0 velA true := by
  rw [detect.eq_def]
  rintro (h | ⟨-, ms, hms, hrest⟩ | ⟨-, h⟩)
  · simp [rectSB, polyA, staticCase, polygonStaticCase, circleOf] at h
  · simp [getCollisionSpace, rectSB] at hms
  · exact notDetect_A_SB_notry h

theorem notDetect_SA_B_notry : ¬ detect rectSA polyB 0 0 0 velB false := by
  rw [detect.eq_def]
  rintro (h | ⟨-, ms, hms, hrest⟩ | ⟨hfalse, -⟩)
  · simp [rectSA, polyB, staticCase, polygonStaticCase, circleOf] at h
  · simp [getCollisionSpace, rectSA] at hms
  · exact Bool.false_ne_true hfalse

theorem notDetect_A_B_notry : ¬ detect polyA polyB 0 velA 0 velB false := by
  rw [detect.eq_def]
  rintro (h | ⟨-, ms, hms, hrest⟩ | ⟨hfalse, -⟩)
  · simp only [polyA, polyB, staticCase, polygonStaticCase, circleOf, V3.zero_add] at h
    exact notPP_AB h
  · rw [gcsA] at hms
    injection hms with hms
    subst hms
    rcases hrest with h | ⟨os, hos, h⟩
    · exact notDetect_SA_B_notry h
    · rw [gcsB] at hos
      injection hos with hos
      subst hos
      exact notDetect_SA_SB_notry h
  · exact Bool.false_ne_true hfalse

theorem detect_BA_false : ¬ detect polyB polyA 0 velB 0 velA true := by
  rw [detect.eq_def]
  rintro (h | ⟨-, ms, hms, hrest⟩ | ⟨-, h⟩)
  · simp only [polyA, polyB, staticCase, polygonStaticCase, circleOf, V3.zero_add] at h
    exact notPP_BA h
  · rw [gcsB] at hms
    injection hms with hms
    subst hms
    rcases hrest with h | ⟨os, hos, h⟩
    · exact notDetect_SB_A_try h
    · rw [gcsA] at hos
      injection hos with hos
      subst hos
      exact notDetect_SB_SA_try h
  · exact notDetect_A_B_notry h

/-- C1 counterexample: collision detection is not symmetric once a shape
moves.  For the two concrete unit polygons `polyA` (at the origin, moving
along x) and `polyB` (at `(5, 3/2, 0)`, moving along y), `polyB` grazes
`polyA`'s swept rectangle, which only the `detect(A, B)` ordering ever tests
against, so `detect(A, B)` is true while `detect(B, A)` is false. -/
theorem detect_not_symmetric_counterexample :
    detect polyA polyB 0 velA 0 velB true ∧ ¬ detect polyB polyA 0 velB 0 velA true :=
  ⟨detect_AB_true, detect_BA_false⟩

theorem distance_comm (p q : V3) : distance p q = distance q p := by
  unfold distance norm norm2 dot
  congr 1
  simp only [V3.sub_x, V3.sub_y, V3.sub_z]
  ring

/-- Embeds the contact-point write on the polygon/sphere-against-polygon/sphere
branch of `Polygon2D::detectCollision`:
`point = (this->getPosition() + other->getPosition()) * 0.5`.  The midpoint of
the two mesh positions; the call offsets are not added in. -/
def polygonPairContactPoint (s1 s2 : Mesh) : V3 :=
  V3.smul 0.5 (getPosition s1 + getPosition s2)

theorem circleOf_getPosition {s : Mesh} {p : V3} {r : ℝ}
    (h : circleOf s = some (p, r)) : getPosition s = p := by
  cases s with
  | base q => simp [circleOf] at h
  | rect q w hh a => simp [circleOf] at h
  | poly q u n a =>
      obtain ⟨rfl, rfl⟩ : q = p ∧ u = r := by simpa [circleOf] using h
      rfl
  | sphere q u =>
      obtain ⟨rfl, rfl⟩ : q = p ∧ u = r := by simpa [circleOf] using h
      rfl

theorem staticCase_circles {s1 s2 : Mesh} {p1 p2 : V3} {r1 r2 : ℝ}
    (h1 : circleOf s1 = some (p1, r1)) (h2 : circleOf s2 = some (p2, r2)) (o1 o2 : V3) :
    staticCase s1 s2 o1 o2 = collisionSpheres (o1 + p1) r1 (o2 + p2) r2 := by
  have inner : ∀ s2, circleOf s2 = some (p2, r2) →
      polygonStaticCase p1 r1 s2 o1 o2 = collisionSpheres (o1 + p1) r1 (o2 + p2) r2 := by
    intro s2 h2
    cases s2 with
    | base q => simp [circleOf] at h2
    | rect q w hh a => simp [circleOf] at h2
    | poly q u n a =>
        obtain ⟨rfl, rfl⟩ : q = p2 ∧ u = r2 := by simpa [circleOf] using h2
        rfl
    | sphere q u =>
        obtain ⟨rfl, rfl⟩ : q = p2 ∧ u = r2 := by simpa [circleOf] using h2
        rfl
  cases s1 with
  | base q => simp [circleOf] at h1
  | rect q w hh a => simp [circleOf] at h1
  | poly q u n a =>
      obtain ⟨rfl, rfl⟩ : q = p1 ∧ u = r1 := by simpa [circleOf] using h1
      exact inner s2 h2
  | sphere q u =>
      obtain ⟨rfl, rfl⟩ : q = p1 ∧ u = r1 := by simpa [circleOf] using h1
      exact inner s2 h2

/-- C5 (amended): for every pair of polygon-or-circle shapes with given
offsets, the static narrow-phase test reports a collision iff the distance
between the two centers (each center being the shape's position plus its
offset) is at most the sum of the two radii; the reported contact point is
the arithmetic midpoint of the two shape POSITIONS, with the offsets not
included.  In the spec's example all offsets are zero, so two unit circles
at (0,0,0) and (3/2,0,0) collide with contact point (3/4,0,0), while circles
at (0,0,0) and (3,0,0) do not collide. -/
theorem sphere_pair_narrow_phase :
    (∀ s1 s2 : Mesh, ∀ p1 p2 : V3, ∀ r1 r2 : ℝ, ∀ o1 o2 : V3,
      circleOf s1 = some (p1, r1) → circleOf s2 = some (p2, r2) →
      ((detect s1 s2 o1 0 o2 0 true ↔ distance (o1 + p1) (o2 + p2) ≤ r1 + r2) ∧
        polygonPairContactPoint s1 s2 = V3.smul 0.5 (p1 + p2))) ∧
    detect (Mesh.sphere ⟨0, 0, 0⟩ 1) (Mesh.sphere ⟨3/2, 0, 0⟩ 1) 0 0 0 0 true ∧
    polygonPairContactPoint (Mesh.sphere ⟨0, 0, 0⟩ 1) (Mesh.sphere ⟨3/2, 0, 0⟩ 1) = ⟨3/4, 0, 0⟩ ∧
    ¬ detect (Mesh.sphere ⟨0, 0, 0⟩ 1) (Mesh.sphere ⟨3, 0, 0⟩ 1) 0 0 0 0 true := by
  have main : ∀ s1 s2 : Mesh, ∀ p1 p2 : V3, ∀ r1 r2 : ℝ, ∀ o1 o2 : V3,
      circleOf s1 = some (p1, r1) → circleOf s2 = some (p2, r2) →
      ((detect s1 s2 o1 0 o2 0 true ↔ distance (o1 + p1) (o2 + p2) ≤ r1 + r2) ∧
        polygonPairContactPoint s1 s2 = V3.smul 0.5 (p1 + p2)) := by
    intro s1 s2 p1 p2 r1 r2 o1 o2 h1 h2
    constructor
    · rw [detect_static, staticCase_circles h1 h2, staticCase_circles h2 h1]
      unfold collisionSpheres
      rw [distance_comm (o2 + p2) (o1 + p1)]
      constructor
      · rintro (h | ⟨-, h⟩)
        · exact h
        · linarith
      · exact fun h => Or.inl h
    · unfold polygonPairContactPoint
      rw [circleOf_getPosition h1, circleOf_getPosition h2]
  refine ⟨main, ?_, ?_, ?_⟩
  · rw [(main (Mesh.sphere ⟨0, 0, 0⟩ 1) (Mesh.sphere ⟨3/2, 0, 0⟩ 1)
      ⟨0, 0, 0⟩ ⟨3/2, 0, 0⟩ 1 1 0 0 rfl rfl).1]
    rw [show distance ((0:V3) + ⟨0, 0, 0⟩) ((0:V3) + ⟨3/2, 0, 0⟩) =
        Real.sqrt (9/4) by unfold distance norm; congr 1; norm_num [norm2, dot]]
    exact sqrt_le_of_sq (by norm_num) (by norm_num)
  · show V3.smul 0.5 ((⟨0, 0, 0⟩ : V3) + ⟨3/2, 0, 0⟩) = ⟨3/4, 0, 0⟩
    ext <;> norm_num
  · rw [(main (Mesh.sphere ⟨0, 0, 0⟩ 1) (Mesh.sphere ⟨3, 0, 0⟩ 1)
      ⟨0, 0, 0⟩ ⟨3, 0, 0⟩ 1 1 0 0 rfl rfl).1]
    rw [show distance ((0:V3) + ⟨0, 0, 0⟩) ((0:V3) + ⟨3, 0, 0⟩) =
        Real.sqrt 9 by unfold distance norm; congr 1; norm_num [norm2, dot]]
    exact not_sqrt_le (by norm_num) (by norm_num)

/-- Witness for C5 (amended): the general polygon/circle statement applied at
two concrete unit spheres, discharging the two `circleOf` hypotheses. -/
theorem sphere_pair_narrow_phase_witness :
    circleOf (Mesh.sphere ⟨0, 0, 0⟩ 1) = some (⟨0, 0, 0⟩, 1) ∧
    circleOf (Mesh.sphere ⟨3/2, 0, 0⟩ 1) = some (⟨3/2, 0, 0⟩, 1) ∧
    ((detect (Mesh.sphere ⟨0, 0, 0⟩ 1) (Mesh.sphere ⟨3/2, 0, 0⟩ 1) 0 0 0 0 true ↔
        distance ((0:V3) + ⟨0, 0, 0⟩) ((0:V3) + ⟨3/2, 0, 0⟩) ≤ 1 + 1) ∧
      polygonPairContactPoint (Mesh.sphere ⟨0, 0, 0⟩ 1) (Mesh.sphere ⟨3/2, 0, 0⟩ 1) =
        V3.smul 0.5 ((⟨0, 0, 0⟩ : V3) + ⟨3/2, 0, 0⟩)) :=
  ⟨rfl, rfl, sphere_pair_narrow_phase.1 _ _ _ _ _ _ _ _ rfl rfl⟩

/-- C5 counterexample: the claim says the reported contact point is the
midpoint of the two CENTERS (position plus offset).  With a nonzero offset
the code still tests the offset centers (so the two unit spheres below, both
at position (0,0,0) with the second offset by (3/2,0,0), collide), but it
reports the midpoint of the raw positions, (0,0,0), not the midpoint of the
centers, (3/4,0,0). -/
theorem contact_point_ignores_offsets :
    detect (Mesh.sphere ⟨0, 0, 0⟩ 1) (Mesh.sphere ⟨0, 0, 0⟩ 1) 0 0 ⟨3/2, 0, 0⟩ 0 true ∧
    polygonPairContactPoint (Mesh.sphere ⟨0, 0, 0⟩ 1) (Mesh.sphere ⟨0, 0, 0⟩ 1) = ⟨0, 0, 0⟩ ∧
    V3.smul 0.5 (((0:V3) + ⟨0, 0, 0⟩) + ((⟨3/2, 0, 0⟩ : V3) + ⟨0, 0, 0⟩)) = ⟨3/4, 0, 0⟩ ∧
    (⟨0, 0, 0⟩ : V3) ≠ ⟨3/4, 0, 0⟩ := by
  refine ⟨?_, ?_, ?_, ?_⟩
  · rw [detect_static,
      @staticCase_circles (Mesh.sphere ⟨0, 0, 0⟩ 1) (Mesh.sphere ⟨0, 0, 0⟩ 1)
        ⟨0, 0, 0⟩ ⟨0, 0, 0⟩ 1 1 rfl rfl 0 ⟨3/2, 0, 0⟩]
    refine Or.inl ?_
    unfold collisionSpheres
    rw [show distance ((0:V3) + ⟨0, 0, 0⟩) ((⟨3/2, 0, 0⟩ : V3) + ⟨0, 0, 0⟩) =
        Real.sqrt (9/4) by unfold distance norm; congr 1; norm_num [norm2, dot]]
    exact sqrt_le_of_sq (by norm_num) (by norm_num)
  · show V3.smul 0.5 ((⟨0, 0, 0⟩ : V3) + ⟨0, 0, 0⟩) = ⟨0, 0, 0⟩
    ext <;> norm_num
  · ext <;> norm_num
  · intro h
    have hx := congrArg V3.x h
    norm_num at hx

/-- Witness for C8: a concrete non-degenerate call, discharging the
`norm2 (e - s) ≠ 0` hypothesis at `s = (0,0,0)`, `e = (2,0,0)`, `p = (3,1,0)`. -/
theorem distanceRayToPoint_total_and_projects_witness :
    norm2 ((⟨2, 0, 0⟩ : V3) - ⟨0, 0, 0⟩) ≠ 0 ∧
    distanceRayToPoint ⟨0, 0, 0⟩ ⟨2, 0, 0⟩ ⟨3, 1, 0⟩ 0 false =
      (distance ⟨3, 1, 0⟩
        ((⟨0, 0, 0⟩ : V3) + V3.smul (clamp (dot ((⟨3, 1, 0⟩ : V3) - ⟨0, 0, 0⟩)
          ((⟨2, 0, 0⟩ : V3) - ⟨0, 0, 0⟩) / norm2 ((⟨2, 0, 0⟩ : V3) - ⟨0, 0, 0⟩)) 0 1)
          ((⟨2, 0, 0⟩ : V3) - ⟨0, 0, 0⟩)),
       (⟨0, 0, 0⟩ : V3) + V3.smul (clamp (dot ((⟨3, 1, 0⟩ : V3) - ⟨0, 0, 0⟩)
          ((⟨2, 0, 0⟩ : V3) - ⟨0, 0, 0⟩) / norm2 ((⟨2, 0, 0⟩ : V3) - ⟨0, 0, 0⟩)) 0 1)
          ((⟨2, 0, 0⟩ : V3) - ⟨0, 0, 0⟩)) := by
  have h : norm2 ((⟨2, 0, 0⟩ : V3) - ⟨0, 0, 0⟩) ≠ 0 := by
    simp [norm2, dot]
  exact ⟨h, distanceRayToPoint_total_and_projects.2.1 _ _ _ _ h⟩

end Engine

namespace Lifecycle

open Engine

/-- Per-entity state of an `Object`: display flag, child identity set,
non-owning parent back-reference, optional collider `Mesh` (null means "does
not collide"), and the motion state.  The owned render mesh and background
collaborator carry no observable state beyond their release, which the
teardown trace records as events. -/
structure Obj where
  display : Bool
  children : List ℕ
  parent : Option ℕ
  collider : Option Engine.Mesh
  position : V3
  speed : V3
  acceleration : V3

/-- Entity state an unallocated identity reads as (fresh `Object` defaults). -/
def defaultObj : Obj :=
  { display := true, children := [], parent := none, collider := none,
    position := 0, speed := 0, acceleration := 0 }

/-- Process-wide state: the allocated entities by identity, the static
`Object::invalid` registry, the static `Object::marked` pending stack (head
is the top), and the hidden static `destroy_shared` flag of `Object::update`
(true initially). -/
structure World where
  objs : List (ℕ × Obj)
  invalid : Finset ℕ
  marked : List ℕ
  destroyShared : Bool

/-- Embeds `Object::isValid`: the identity is absent from the invalid
registry. -/
def isValid (w : World) (i : ℕ) : Prop := i ∉ w.invalid

instance (w : World) (i : ℕ) : Decidable (isValid w i) := by
  unfold isValid
  infer_instance

/-- Association-list lookup of entity state; absent identities yield the
defaults. -/
def lookupObj : List (ℕ × Obj) → ℕ → Obj
  | [], _ => defaultObj
  | e :: rest, i => if e.1 = i then e.2 else lookupObj rest i

/-- Entity state of identity `i`. -/
def getObj (w : World) (i : ℕ) : Obj := lookupObj w.objs i

/-- Field update of the entity with identity `i` (no-op when absent). -/
def setObj (w : World) (i : ℕ) (f : Obj → Obj) : World :=
  { w with objs := w.objs.map (fun e => if e.1 = i then (e.1, f e.2) else e) }

/-- Embeds `Object::destroy`: clear the display flag and push the identity on
the process-wide marked stack.  There is no already-pending check. -/
def destroy (w : World) (i : ℕ) : World :=
  let w1 := setObj w i (fun o => { o with display := false })
  { w1 with marked := i :: w1.marked }

/-- Embeds `Object::removeChild`: when both sides are valid, null the child's
parent back-reference and erase it from the parent's child set. -/
def removeChild (w : World) (p c : ℕ) : World :=
  if isValid w p ∧ isValid w c then
    setObj (setObj w c (fun o => { o with parent := none })) p
      (fun o => { o with children := o.children.erase c })
  else w

/-- Embeds `Object::addChild`: when both sides are valid, point the child's
parent back-reference at the parent and insert the child into the parent's
child set.  The child's previous parent, if any, is not informed. -/
def addChild (w : World) (p c : ℕ) : World :=
  if isValid w p ∧ isValid w c then
    setObj (setObj w c (fun o => { o with parent := some p })) p
      (fun o => { o with children := o.children.insert c })
  else w

/-- Embeds `Object::setParent`: `this->parent->addChild(obj)`.  When the
parent back-reference is null, the source calls `addChild` through a null
pointer (the null identity passes `isValid` because the registry never holds
it) and then dereferences it: undefined behaviour, modelled as leaving the
world unchanged. -/
def setParent (w : World) (t o : ℕ) : World :=
  if isValid w t ∧ isValid w o then
    match (getObj w t).parent with
    | some gp => addChild w gp o
    | none => w
  else w

/-- Embeds `Object::removeParent`: with a valid parent back-reference,
`parent->removeChild(this)`.  With a null parent the source dereferences the
null pointer inside `removeChild` (the null identity passes `isValid`):
undefined behaviour, modelled as leaving the world unchanged. -/
def removeParent (w : World) (i : ℕ) : World :=
  if isValid w i then
    match (getObj w i).parent with
    | some p => if isValid w p then removeChild w p i else w
    | none => w
  else w

/-- Embeds the `Object` constructor: fields initialised from the arguments
(child set empty, parent and collider null), and — last — the new identity
erased from the process-wide invalid registry
(`Object::invalid.erase(this)`). -/
def constructObj (w : World) (i : ℕ) (pos : V3) (disp : Bool) (spd acc : V3) : World :=
  { w with
      objs := (i, { display := disp, children := [], parent := none, collider := none,
                    position := pos, speed := spd, acceleration := acc }) :: w.objs,
      invalid := w.invalid.erase i }

/-- Observable events of the update/teardown machinery, recording the empty
virtual hooks, the two `delete` statements for the owned background and mesh,
the registry insertion, the cascaded destroy requests, and the entity's own
release. -/
inductive Event where
  | integrated (i : ℕ)
  | beforeDestroy (i : ℕ)
  | detachParent (i : ℕ)
  | cascaded (i : ℕ) (c : ℕ)
  | releaseBackground (i : ℕ)
  | releaseMesh (i : ℕ)
  | invalidated (i : ℕ)
  | afterDestroy (i : ℕ)
  | freed (i : ℕ)

/-- Injective numeric encoding of an `Event`: constructor tag and payload. -/
def Event.code : Event → ℕ × ℕ × ℕ
  | .integrated i => (0, i, 0)
  | .beforeDestroy i => (1, i, 0)
  | .detachParent i => (2, i, 0)
  | .cascaded i c => (3, i, c)
  | .releaseBackground i => (4, i, 0)
  | .releaseMesh i => (5, i, 0)
  | .invalidated i => (6, i, 0)
  | .afterDestroy i => (7, i, 0)
  | .freed i => (8, i, 0)

theorem Event.code_inj : ∀ {a b : Event}, a.code = b.code → a = b := by
  intro a b
  cases a <;> cases b <;> simp [Event.code]

instance : DecidableEq Event := fun a b =>
  decidable_of_iff (Event.code a = Event.code b)
    ⟨Event.code_inj, fun h => congrArg Event.code h⟩

/-- Cascade `child->destroy()` over a child list in iteration order. -/
def destroyList (l : List ℕ) (w : World) : World := l.foldl destroy w

/-- State change of one `Object::delayedDestroy` iteration on a valid popped
entity `i`, in source order: detach from parent, cascade destroy to every
remaining child, clear the child set, release background and mesh (pure
events), insert into the invalid registry (the destructor's second insertion
is absorbed by set semantics), release the entity's storage. -/
def teardownStep (w : World) (i : ℕ) : World :=
  let w2 := removeParent w i
  let w3 := destroyList ((getObj w2 i).children) w2
  let w4 := setObj w3 i (fun o => { o with children := [] })
  { w4 with invalid := insert i w4.invalid }

/-- Events of one `Object::delayedDestroy` iteration on a valid popped
entity, in source order. -/
def teardownTrace (w : World) (i : ℕ) : List Event :=
  Event.beforeDestroy i :: Event.detachParent i ::
    (((getObj (removeParent w i) i).children).map (fun c => Event.cascaded i c) ++
      [Event.releaseBackground i, Event.releaseMesh i, Event.invalidated i,
       Event.afterDestroy i, Event.freed i])

/-- Number of allocated identities not yet in the invalid registry; the
primary termination measure of the sweep (each valid teardown invalidates its
entity for good). -/
def validCard (w : World) : ℕ :=
  ((w.objs.map Prod.fst).toFinset.filter (fun k => k ∉ w.invalid)).card

theorem setObj_keys (w : World) (i : ℕ) (f : Obj → Obj) :
    (setObj w i f).objs.map Prod.fst = w.objs.map Prod.fst := by
  unfold setObj
  simp only [List.map_map]
  refine List.map_congr_left ?_
  intro e he
  by_cases hc : e.1 = i <;> simp [hc]

theorem lookup_mapSet_ne (l : List (ℕ × Obj)) (i j : ℕ) (f : Obj → Obj) (h : j ≠ i) :
    lookupObj (l.map (fun e => if e.1 = i then (e.1, f e.2) else e)) j = lookupObj l j := by
  induction l with
  | nil => rfl
  | cons e rest ih =>
      simp only [List.map_cons]
      by_cases hc : e.1 = i
      · simp [lookupObj, hc, Ne.symm h, ih]
      · by_cases hj : e.1 = j
        · simp [lookupObj, hc, hj, h]
        · simp [lookupObj, hc, hj, ih]

theorem getObj_setObj_ne (w : World) (i j : ℕ) (f : Obj → Obj) (h : j ≠ i) :
    getObj (setObj w i f) j = getObj w j :=
  lookup_mapSet_ne w.objs i j f h

theorem lookup_mapSet_self (l : List (ℕ × Obj)) (i : ℕ) (f : Obj → Obj) :
    lookupObj (l.map (fun e => if e.1 = i then (e.1, f e.2) else e)) i =
      if i ∈ l.map Prod.fst then f (lookupObj l i) else defaultObj := by
  induction l with
  | nil => rfl
  | cons e rest ih =>
      simp only [List.map_cons]
      by_cases hc : e.1 = i
      · simp [lookupObj, hc]
      · simp only [if_neg hc, List.mem_cons]
        rw [show lookupObj (e :: rest) i = lookupObj rest i by simp [lookupObj, hc]]
        rw [show lookupObj (e :: (List.map (fun e => if e.1 = i then (e.1, f e.2) else e) rest)) i =
          lookupObj (List.map (fun e => if e.1 = i then (e.1, f e.2) else e) rest) i by
            simp [lookupObj, hc]]
        rw [ih]
        by_cases hm : i ∈ rest.map Prod.fst
        · simp [hm]
        · simp [hm, Ne.symm hc]

theorem getObj_setObj_self (w : World) (i : ℕ) (f : Obj → Obj) :
    getObj (setObj w i f) i =
      if i ∈ w.objs.map Prod.fst then f (getObj w i) else defaultObj :=
  lookup_mapSet_self w.objs i f

theorem lookup_absent (l : List (ℕ × Obj)) (i : ℕ) (h : i ∉ l.map Prod.fst) :
    lookupObj l i = defaultObj := by
  induction l with
  | nil => rfl
  | cons e rest ih =>
      simp only [List.map_cons, List.mem_cons] at h
      push_neg at h
      simp [lookupObj, Ne.symm h.1, ih h.2]

theorem getObj_absent (w : World) (i : ℕ) (h : i ∉ w.objs.map Prod.fst) :
    getObj w i = defaultObj :=
  lookup_absent w.objs i h

theorem getObj_setObj_field {α : Type} (g : Obj → α) (w : World) (i j : ℕ) (f : Obj → Obj)
    (hf : ∀ o, g (f o) = g o) : g (getObj (setObj w i f) j) = g (getObj w j) := by
  by_cases hj : j = i
  · subst hj
    rw [getObj_setObj_self]
    by_cases hm : j ∈ w.objs.map Prod.fst
    · rw [if_pos hm, hf]
    · rw [if_neg hm, getObj_absent w j hm]
  · rw [getObj_setObj_ne w i j f hj]

@[simp] theorem setObj_invalid (w : World) (i : ℕ) (f : Obj → Obj) :
    (setObj w i f).invalid = w.invalid := rfl

@[simp] theorem setObj_marked (w : World) (i : ℕ) (f : Obj → Obj) :
    (setObj w i f).marked = w.marked := rfl

@[simp] theorem setObj_dsh (w : World) (i : ℕ) (f : Obj → Obj) :
    (setObj w i f).destroyShared = w.destroyShared := rfl

theorem destroy_marked (w : World) (i : ℕ) : (destroy w i).marked = i :: w.marked := rfl

theorem destroy_invalid (w : World) (i : ℕ) : (destroy w i).invalid = w.invalid := rfl

theorem destroy_dsh (w : World) (i : ℕ) : (destroy w i).destroyShared = w.destroyShared := rfl

theorem destroy_keys (w : World) (i : ℕ) :
    (destroy w i).objs.map Prod.fst = w.objs.map Prod.fst := by
  show (setObj w i (fun o => { o with display := false })).objs.map Prod.fst =
    w.objs.map Prod.fst
  exact setObj_keys w i _

theorem destroyList_step (c : ℕ) (rest : List ℕ) (w : World) :
    destroyList (c :: rest) w = destroyList rest (destroy w c) := rfl

theorem destroyList_marked (l : List ℕ) (w : World) :
    (destroyList l w).marked = l.reverse ++ w.marked := by
  induction l generalizing w with
  | nil => rfl
  | cons c rest ih =>
      rw [destroyList_step, ih, destroy_marked]
      simp

theorem destroyList_invalid (l : List ℕ) (w : World) :
    (destroyList l w).invalid = w.invalid := by
  induction l generalizing w with
  | nil => rfl
  | cons c rest ih => rw [destroyList_step, ih, destroy_invalid]

theorem destroyList_dsh (l : List ℕ) (w : World) :
    (destroyList l w).destroyShared = w.destroyShared := by
  induction l generalizing w with
  | nil => rfl
  | cons c rest ih => rw [destroyList_step, ih, destroy_dsh]

theorem destroyList_keys (l : List ℕ) (w : World) :
    (destroyList l w).objs.map Prod.fst = w.objs.map Prod.fst := by
  induction l generalizing w with
  | nil => rfl
  | cons c rest ih => rw [destroyList_step, ih, destroy_keys]

theorem removeChild_marked (w : World) (p c : ℕ) : (removeChild w p c).marked = w.marked := by
  unfold removeChild
  split <;> rfl

theorem removeChild_invalid (w : World) (p c : ℕ) : (removeChild w p c).invalid = w.invalid := by
  unfold removeChild
  split <;> rfl

theorem removeChild_dsh (w : World) (p c : ℕ) :
    (removeChild w p c).destroyShared = w.destroyShared := by
  unfold removeChild
  split <;> rfl

theorem removeChild_keys (w : World) (p c : ℕ) :
    (removeChild w p c).objs.map Prod.fst = w.objs.map Prod.fst := by
  unfold removeChild
  split
  · rw [setObj_keys, setObj_keys]
  · rfl

theorem removeParent_marked (w : World) (i : ℕ) : (removeParent w i).marked = w.marked := by
  unfold removeParent
  split
  · split
    · split
      · rw [removeChild_marked]
      · rfl
    · rfl
  · rfl

theorem removeParent_invalid (w : World) (i : ℕ) : (removeParent w i).invalid = w.invalid := by
  unfold removeParent
  split
  · split
    · split
      · rw [removeChild_invalid]
      · rfl
    · rfl
  · rfl

theorem removeParent_dsh (w : World) (i : ℕ) :
    (removeParent w i).destroyShared = w.destroyShared := by
  unfold removeParent
  split
  · split
    · split
      · rw [removeChild_dsh]
      · rfl
    · rfl
  · rfl

theorem removeParent_keys (w : World) (i : ℕ) :
    (removeParent w i).objs.map Prod.fst = w.objs.map Prod.fst := by
  unfold removeParent
  split
  · split
    · split
      · rw [removeChild_keys]
      · rfl
    · rfl
  · rfl

theorem teardownStep_invalid (w : World) (i : ℕ) :
    (teardownStep w i).invalid = insert i w.invalid := by
  simp only [teardownStep, setObj_invalid, destroyList_invalid, removeParent_invalid]

theorem teardownStep_keys (w : World) (i : ℕ) :
    (teardownStep w i).objs.map Prod.fst = w.objs.map Prod.fst := by
  simp only [teardownStep]
  rw [setObj_keys, destroyList_keys, removeParent_keys]

theorem teardownStep_marked (w : World) (i : ℕ) :
    (teardownStep w i).marked =
      ((getObj (removeParent w i) i).children).reverse ++ w.marked := by
  simp only [teardownStep, setObj_marked, destroyList_marked, removeParent_marked]

theorem validCard_teardownStep_lt (w : World) (i : ℕ) (hv : i ∉ w.invalid)
    (hk : i ∈ (w.objs.map Prod.fst).toFinset) :
    validCard (teardownStep w i) < validCard w := by
  unfold validCard
  rw [teardownStep_keys, teardownStep_invalid]
  apply Finset.card_lt_card
  rw [Finset.ssubset_iff_of_subset]
  · refine ⟨i, ?_, ?_⟩
    · simp only [Finset.mem_filter]
      exact ⟨hk, hv⟩
    · simp
  · intro k hkk
    simp only [Finset.mem_filter, Finset.mem_insert] at hkk ⊢
    exact ⟨hkk.1, fun hmem => hkk.2 (Or.inr hmem)⟩

theorem validCard_teardownStep_eq (w : World) (i : ℕ)
    (hk : i ∉ (w.objs.map Prod.fst).toFinset) :
    validCard (teardownStep w i) = validCard w := by
  unfold validCard
  rw [teardownStep_keys, teardownStep_invalid]
  congr 1
  apply Finset.filter_congr
  intro k hkk
  have hne : k ≠ i := fun hh => hk (hh ▸ hkk)
  simp [Finset.mem_insert, hne]

/-- Embeds `Object::delayedDestroy`: pop the marked stack until empty,
skipping entities the registry already holds, and running the teardown
sequence on each valid one.  The returned world and event list describe the
whole sweep. -/
def delayedDestroy (w : World) : World × List Event :=
  match h : w.marked with
  | [] => (w, [])
  | i :: rest =>
      let w1 : World := { w with marked := rest }
      if hv : isValid w1 i then
        let r := delayedDestroy (teardownStep w1 i)
        (r.1, teardownTrace w1 i ++ r.2)
      else delayedDestroy w1
termination_by (validCard w, w.marked.length)
decreasing_by
  · by_cases hk : i ∈ (w.objs.map Prod.fst).toFinset
    · exact Prod.Lex.left _ _ (validCard_teardownStep_lt w1 i hv hk)
    · have he : validCard (teardownStep w1 i) = validCard w := validCard_teardownStep_eq w1 i hk
      have hchild : (getObj (removeParent w1 i) i).children = [] := by
        have habs : i ∉ (removeParent w1 i).objs.map Prod.fst := by
          rw [removeParent_keys]
          intro hcon
          exact hk (List.mem_toFinset.mpr hcon)
        rw [getObj_absent _ _ habs]
        rfl
      have hlen : (teardownStep w1 i).marked.length < w.marked.length := by
        rw [teardownStep_marked, hchild, h]
        simp
      rw [he]
      exact Prod.Lex.right _ hlen
  · have hvc : validCard w1 = validCard w := rfl
    rw [hvc]
    refine Prod.Lex.right _ ?_
    rw [h]
    simp

theorem delayedDestroy_nil (w : World) (h : w.marked = []) : delayedDestroy w = (w, []) := by
  unfold delayedDestroy
  split
  · rfl
  · rename_i j rest2 heq
    rw [h] at heq
    cases heq

theorem delayedDestroy_cons_valid (w : World) (i : ℕ) (rest : List ℕ)
    (h : w.marked = i :: rest) (hv : isValid w i) :
    delayedDestroy w = ((delayedDestroy (teardownStep { w with marked := rest } i)).1,
      teardownTrace { w with marked := rest } i ++
        (delayedDestroy (teardownStep { w with marked := rest } i)).2) := by
  conv_lhs => rw [delayedDestroy.eq_def]
  split
  · rename_i heq
    rw [h] at heq
    cases heq
  · rename_i j rest2 heq
    rw [h] at heq
    injection heq with h1 h2
    subst h1
    subst h2
    show (if hv : isValid { w with marked := rest } i then
        let r := delayedDestroy (teardownStep { w with marked := rest } i)
        (r.1, teardownTrace { w with marked := rest } i ++ r.2)
      else delayedDestroy { w with marked := rest }) = _
    have hv2 : isValid { w with marked := rest } i := hv
    rw [dif_pos hv2]

theorem delayedDestroy_cons_invalid (w : World) (i : ℕ) (rest : List ℕ)
    (h : w.marked = i :: rest) (hv : ¬ isValid w i) :
    delayedDestroy w = delayedDestroy { w with marked := rest } := by
  conv_lhs => rw [delayedDestroy.eq_def]
  split
  · rename_i heq
    rw [h] at heq
    cases heq
  · rename_i j rest2 heq
    rw [h] at heq
    injection heq with h1 h2
    subst h1
    subst h2
    show (if hv : isValid { w with marked := rest } i then
        let r := delayedDestroy (teardownStep { w with marked := rest } i)
        (r.1, teardownTrace { w with marked := rest } i ++ r.2)
      else delayedDestroy { w with marked := rest }) = _
    have hv2 : ¬ isValid { w with marked := rest } i := hv
    rw [dif_neg hv2]

theorem delayedDestroy_cons_valid_snd (w : World) (i : ℕ) (rest : List ℕ)
    (h : w.marked = i :: rest) (hv : isValid w i) :
    (delayedDestroy w).2 = teardownTrace { w with marked := rest } i ++
      (delayedDestroy (teardownStep { w with marked := rest } i)).2 := by
  rw [delayedDestroy_cons_valid w i rest h hv]

theorem delayedDestroy_cons_valid_fst (w : World) (i : ℕ) (rest : List ℕ)
    (h : w.marked = i :: rest) (hv : isValid w i) :
    (delayedDestroy w).1 = (delayedDestroy (teardownStep { w with marked := rest } i)).1 := by
  rw [delayedDestroy_cons_valid w i rest h hv]

theorem count_freed_cascades (i j : ℕ) (l : List ℕ) :
    (l.map (fun c => Event.cascaded i c)).count (Event.freed j) = 0 := by
  rw [List.count_eq_zero]
  intro hmem
  simp only [List.mem_map] at hmem
  obtain ⟨c, -, hc⟩ := hmem
  cases hc

theorem teardownTrace_count_freed (w : World) (i j : ℕ) :
    (teardownTrace w i).count (Event.freed j) = if i = j then 1 else 0 := by
  unfold teardownTrace
  rw [List.count_cons, List.count_cons, List.count_append, count_freed_cascades]
  by_cases hij : i = j
  · subst hij
    simp [List.count_cons]
  · simp [List.count_cons, hij, Ne.symm hij]

theorem delayedDestroy_no_freed_of_invalid (w : World) :
    ∀ j, j ∈ w.invalid → Event.freed j ∉ (delayedDestroy w).2 := by
  induction w using delayedDestroy.induct with
  | case1 x hx =>
      intro j hj
      rw [delayedDestroy_nil x hx]
      simp
  | case2 x i rest hmark w1 hv =>
      rename_i ih
      intro j hj
      have hvx : isValid x i := hv
      rw [delayedDestroy_cons_valid_snd x i rest hmark hvx]
      intro hmem
      rcases List.mem_append.mp hmem with hmem | hmem
      · have hne : i ≠ j := fun hh => hvx (hh ▸ hj)
        have hcz : (teardownTrace { x with marked := rest } i).count (Event.freed j) = 0 := by
          rw [teardownTrace_count_freed, if_neg hne]
        exact absurd hmem (List.count_eq_zero.mp hcz)
      · exact ih j (by rw [teardownStep_invalid]; exact Finset.mem_insert_of_mem hj) hmem
  | case3 x i rest hmark w1 hv =>
      rename_i ih
      intro j hj
      have hvx : ¬ isValid x i := hv
      rw [delayedDestroy_cons_invalid x i rest hmark hvx]
      exact ih j hj

theorem delayedDestroy_count_freed_le_one (w : World) :
    ∀ j, ((delayedDestroy w).2).count (Event.freed j) ≤ 1 := by
  induction w using delayedDestroy.induct with
  | case1 x hx =>
      intro j
      rw [delayedDestroy_nil x hx]
      simp
  | case2 x i rest hmark w1 hv =>
      rename_i ih
      intro j
      have hvx : isValid x i := hv
      rw [delayedDestroy_cons_valid_snd x i rest hmark hvx, List.count_append,
        teardownTrace_count_freed]
      by_cases hij : i = j
      · subst hij
        have hz : ((delayedDestroy (teardownStep { x with marked := rest } i)).2).count
            (Event.freed i) = 0 := by
          rw [List.count_eq_zero]
          exact delayedDestroy_no_freed_of_invalid _ i
            (by rw [teardownStep_invalid]; exact Finset.mem_insert_self i _)
        rw [hz, if_pos rfl]
      · rw [if_neg hij]
        simpa using ih j
  | case3 x i rest hmark w1 hv =>
      rename_i ih
      intro j
      have hvx : ¬ isValid x i := hv
      rw [delayedDestroy_cons_invalid x i rest hmark hvx]
      exact ih j

theorem delayedDestroy_count_freed_eq_one (w : World) :
    ∀ j, j ∈ w.marked → isValid w j → ((delayedDestroy w).2).count (Event.freed j) = 1 := by
  induction w using delayedDestroy.induct with
  | case1 x hx =>
      intro j hj hv2
      rw [hx] at hj
      cases hj
  | case2 x i rest hmark w1 hv =>
      rename_i ih
      intro j hjm hjv
      have hvx : isValid x i := hv
      rw [delayedDestroy_cons_valid_snd x i rest hmark hvx, List.count_append,
        teardownTrace_count_freed]
      by_cases hij : i = j
      · subst hij
        have hz : ((delayedDestroy (teardownStep { x with marked := rest } i)).2).count
            (Event.freed i) = 0 := by
          rw [List.count_eq_zero]
          exact delayedDestroy_no_freed_of_invalid _ i
            (by rw [teardownStep_invalid]; exact Finset.mem_insert_self i _)
        rw [hz, if_pos rfl]
      · rw [if_neg hij]
        have hjrest : j ∈ rest := by
          rw [hmark] at hjm
          rcases List.mem_cons.mp hjm with rfl | hh
          · exact absurd rfl hij
          · exact hh
        have hmem2 : j ∈ (teardownStep { x with marked := rest } i).marked := by
          rw [teardownStep_marked]
          exact List.mem_append.mpr (Or.inr hjrest)
        have hval2 : isValid (teardownStep { x with marked := rest } i) j := by
          show j ∉ (teardownStep { x with marked := rest } i).invalid
          rw [teardownStep_invalid]
          intro hcon
          rcases Finset.mem_insert.mp hcon with rfl | hcon2
          · exact hij rfl
          · exact hjv hcon2
        simpa using ih j hmem2 hval2
  | case3 x i rest hmark w1 hv =>
      rename_i ih
      intro j hjm hjv
      have hvx : ¬ isValid x i := hv
      rw [delayedDestroy_cons_invalid x i rest hmark hvx]
      have hjrest : j ∈ rest := by
        rw [hmark] at hjm
        rcases List.mem_cons.mp hjm with rfl | hh
        · exact absurd hjv hvx
        · exact hh
      exact ih j hjrest hjv

/-- Embeds the motion integration of `Object::update`:
`position += speed; speed += acceleration`. -/
def integrate (w : World) (i : ℕ) : World :=
  setObj w i (fun o =>
    { o with position := o.position + o.speed, speed := o.speed + o.acceleration })

/-- The tail of `Object::update`: when the saved `destroy_local` flag was set
(outermost call), restore the shared flag to true and run the sweep;
otherwise leave the state as is. -/
def finishWorld (destroy_local : Bool) (w : World) : World :=
  if destroy_local then (delayedDestroy { w with destroyShared := true }).1 else w

/-- Events of the tail of `Object::update`. -/
def finishEvents (destroy_local : Bool) (w : World) : List Event :=
  if destroy_local then (delayedDestroy { w with destroyShared := true }).2 else []

/-- Big-step semantics of `Object::update`.  The index `Sum.inl i` is one
call on entity `i`; `Sum.inr l` is the iteration over a snapshot `l` of a
child set.  A call saves the process-wide `destroy_shared` flag into
`destroy_local`, clears the shared flag, then — when the entity is valid —
snapshots the children, integrates motion, and recurses into the snapshot;
finally, when `destroy_local` was set, it restores the shared flag and runs
`delayedDestroy`.  The `now`/`tick` arguments feed only the empty virtual
hooks and are omitted; the hooks contribute no state change or event. -/
inductive UpdateSem : ℕ ⊕ List ℕ → World → World → List Event → Prop where
  | updValid : ∀ (i : ℕ) (w w3 : World) (evs : List Event),
      isValid w i →
      UpdateSem (Sum.inr (getObj w i).children)
        (integrate { w with destroyShared := false } i) w3 evs →
      UpdateSem (Sum.inl i) w (finishWorld w.destroyShared w3)
        ((Event.integrated i :: evs) ++ finishEvents w.destroyShared w3)
  | updInvalid : ∀ (i : ℕ) (w : World),
      ¬ isValid w i →
      UpdateSem (Sum.inl i) w (finishWorld w.destroyShared { w with destroyShared := false })
        (finishEvents w.destroyShared { w with destroyShared := false })
  | iterNil : ∀ w : World, UpdateSem (Sum.inr []) w w []
  | iterCons : ∀ (i : ℕ) (l : List ℕ) (w w1 w2 : World) (e1 e2 : List Event),
      UpdateSem (Sum.inl i) w w1 e1 → UpdateSem (Sum.inr l) w1 w2 e2 →
      UpdateSem (Sum.inr (i :: l)) w w2 (e1 ++ e2)

theorem integrate_invalid (w : World) (i : ℕ) : (integrate w i).invalid = w.invalid := rfl

theorem integrate_marked (w : World) (i : ℕ) : (integrate w i).marked = w.marked := rfl

/-- A nested update call (the shared flag already cleared) never sweeps: it
leaves the registry, the pending stack and the flag unchanged and emits only
integration events. -/
theorem nested_update_no_sweep :
    ∀ idx : ℕ ⊕ List ℕ, ∀ w w2 : World, ∀ evs : List Event,
      UpdateSem idx w w2 evs → w.destroyShared = false →
      w2.destroyShared = false ∧ w2.invalid = w.invalid ∧ w2.marked = w.marked ∧
      (∀ e ∈ evs, ∃ k, e = Event.integrated k) := by
  intro idx w w2 evs h
  induction h with
  | updValid i w w3 evs hv hrun ih =>
      intro hdsh
      have hbase : (integrate { w with destroyShared := false } i).destroyShared = false := rfl
      obtain ⟨h1, h2, h3, h4⟩ := ih hbase
      rw [hdsh]
      refine ⟨h1, ?_, ?_, ?_⟩
      · show w3.invalid = w.invalid
        rw [h2, integrate_invalid]
      · show w3.marked = w.marked
        rw [h3, integrate_marked]
      · intro e he
        show ∃ k, e = Event.integrated k
        rcases List.mem_append.mp he with he | he
        · rcases List.mem_cons.mp he with rfl | he
          · exact ⟨i, rfl⟩
          · exact h4 e he
        · rw [show finishEvents false w3 = [] from rfl] at he
          cases he
  | updInvalid i w hv =>
      intro hdsh
      rw [hdsh]
      exact ⟨rfl, rfl, rfl, fun e he => absurd he (by simp [finishEvents])⟩
  | iterNil w =>
      intro hdsh
      exact ⟨hdsh, rfl, rfl, fun e he => absurd he (List.not_mem_nil e)⟩
  | iterCons i l w w1 w2 e1 e2 hup hiter ih1 ih2 =>
      intro hdsh
      obtain ⟨g1, g2, g3, g4⟩ := ih1 hdsh
      obtain ⟨k1, k2, k3, k4⟩ := ih2 g1
      refine ⟨k1, k2.trans g2, k3.trans g3, ?_⟩
      intro e he
      rcases List.mem_append.mp he with he | he
      · exact g4 e he
      · exact k4 e he

/-- C2: the pending-to-freed sweep happens only when the outermost update
call finishes.  A nested call (shared flag already false) frees nothing and
leaves the registry untouched; the outermost call (shared flag true) produces
only integration events during its traversal, then runs `delayedDestroy`
exactly once on the traversal's final state, and that single sweep frees each
entity at most once — exactly once for each entity that was pending and valid
when the call began. -/
theorem sweep_only_at_outermost :
    ∀ i : ℕ, ∀ w w2 : World, ∀ evs : List Event, UpdateSem (Sum.inl i) w w2 evs →
      ((w.destroyShared = false → w2.invalid = w.invalid ∧ ∀ j, Event.freed j ∉ evs) ∧
       (w.destroyShared = true →
          ∃ wb : World, ∃ eb : List Event,
            (∀ e ∈ eb, ∃ k, e = Event.integrated k) ∧
            wb.marked = w.marked ∧ wb.invalid = w.invalid ∧
            w2 = (delayedDestroy { wb with destroyShared := true }).1 ∧
            evs = eb ++ (delayedDestroy { wb with destroyShared := true }).2 ∧
            (∀ j, ((delayedDestroy { wb with destroyShared := true }).2).count
              (Event.freed j) ≤ 1) ∧
            (∀ j, j ∈ w.marked → isValid w j →
              ((delayedDestroy { wb with destroyShared := true }).2).count
                (Event.freed j) = 1))) := by
  intro i w w2 evs h
  cases h with
  | updValid i w w3 evs0 hv hrun =>
      have hbase : (integrate { w with destroyShared := false } i).destroyShared = false := rfl
      obtain ⟨h1, h2, h3, h4⟩ := nested_update_no_sweep _ _ _ _ hrun hbase
      constructor
      · intro hdsh
        rw [hdsh]
        constructor
        · show w3.invalid = w.invalid
          rw [h2, integrate_invalid]
        · intro j hmem
          rcases List.mem_append.mp hmem with hmem | hmem
          · rcases List.mem_cons.mp hmem with heq | hmem
            · cases heq
            · obtain ⟨k, hk⟩ := h4 _ hmem
              cases hk
          · rw [show finishEvents false w3 = [] from rfl] at hmem
            cases hmem
      · intro hdsh
        rw [hdsh]
        refine ⟨w3, Event.integrated i :: evs0, ?_, ?_, ?_, rfl, rfl, ?_, ?_⟩
        · intro e he
          rcases List.mem_cons.mp he with rfl | he
          · exact ⟨i, rfl⟩
          · exact h4 e he
        · rw [h3, integrate_marked]
        · rw [h2, integrate_invalid]
        · intro j
          exact delayedDestroy_count_freed_le_one _ j
        · intro j hjm hjv
          apply delayedDestroy_count_freed_eq_one
          · show j ∈ w3.marked
            rw [h3, integrate_marked]
            exact hjm
          · show j ∉ (({ w3 with destroyShared := true } : World)).invalid
            show j ∉ w3.invalid
            rw [h2, integrate_invalid]
            exact hjv
  | updInvalid i w hv =>
      constructor
      · intro hdsh
        rw [hdsh]
        exact ⟨rfl, fun j hmem => absurd hmem (by simp [finishEvents])⟩
      · intro hdsh
        rw [hdsh]
        refine ⟨{ w with destroyShared := false }, [], ?_, rfl, rfl, rfl, rfl, ?_, ?_⟩
        · intro e he
          cases he
        · intro j
          exact delayedDestroy_count_freed_le_one _ j
        · intro j hjm hjv
          exact delayedDestroy_count_freed_eq_one _ j hjm hjv

theorem removeChild_children_other (w : World) (p c j : ℕ) (hjp : j ≠ p) :
    (getObj (removeChild w p c) j).children = (getObj w j).children := by
  unfold removeChild
  split
  · rw [getObj_setObj_ne _ _ _ _ hjp]
    exact getObj_setObj_field (fun o => o.children) w c j _ (fun o => rfl)
  · rfl


theorem removeParent_eq_removeChild (w : World) (i r : ℕ)
    (hv : isValid w i) (hp : (getObj w i).parent = some r) (hvr : isValid w r) :
    removeParent w i = removeChild w r i := by
  unfold removeParent
  rw [if_pos hv, hp]
  show (if isValid w r then removeChild w r i else w) = removeChild w r i
  rw [if_pos hvr]

theorem teardownStep_getObj_other (w : World) (i r j : ℕ) (hv : isValid w i) (hir : i ≠ r)
    (hp : (getObj w i).parent = some r) (hvr : isValid w r)
    (hch : (getObj w i).children = []) (hji : j ≠ i) (hjr : j ≠ r) :
    getObj (teardownStep w i) j = getObj w j := by
  have hrp : removeParent w i = removeChild w r i := removeParent_eq_removeChild w i r hv hp hvr
  have hch2 : (getObj (removeParent w i) i).children = [] := by
    rw [hrp, removeChild_children_other w r i i hir, hch]
  have key : getObj (teardownStep w i) j =
      getObj (destroyList ((getObj (removeParent w i) i).children) (removeParent w i)) j := by
    have hstep : getObj (teardownStep w i) j =
        getObj (setObj (destroyList ((getObj (removeParent w i) i).children)
          (removeParent w i)) i (fun o => { o with children := [] })) j := rfl
    rw [hstep, getObj_setObj_ne _ _ _ _ hji]
  rw [key, hch2]
  show getObj (removeParent w i) j = getObj w j
  rw [hrp]
  unfold removeChild
  split
  · rw [getObj_setObj_ne _ _ _ _ hjr, getObj_setObj_ne _ _ _ _ hji]
  · rfl

theorem teardown_scenario_trace (w : World) (i r : ℕ) (hv : isValid w i) (hir : i ≠ r)
    (hp : (getObj w i).parent = some r) (hvr : isValid w r)
    (hch : (getObj w i).children = []) :
    teardownTrace w i = [Event.beforeDestroy i, Event.detachParent i,
      Event.releaseBackground i, Event.releaseMesh i, Event.invalidated i,
      Event.afterDestroy i, Event.freed i] := by
  have hrp : removeParent w i = removeChild w r i := removeParent_eq_removeChild w i r hv hp hvr
  have hch2 : (getObj (removeParent w i) i).children = [] := by
    rw [hrp, removeChild_children_other w r i i hir, hch]
  unfold teardownTrace
  rw [hch2]
  rfl

theorem teardown_scenario_marked (w : World) (i r : ℕ) (hv : isValid w i) (hir : i ≠ r)
    (hp : (getObj w i).parent = some r) (hvr : isValid w r)
    (hch : (getObj w i).children = []) :
    (teardownStep w i).marked = w.marked := by
  have hrp : removeParent w i = removeChild w r i := removeParent_eq_removeChild w i r hv hp hvr
  have hch2 : (getObj (removeParent w i) i).children = [] := by
    rw [hrp, removeChild_children_other w r i i hir, hch]
  rw [teardownStep_marked, hch2]
  rfl

/-- Shared two-entity sweep scenario: with `a` requested first and `b` second
(stack `[b, a]`), both valid and childless with the same valid parent `r`,
the sweep tears down `b` entirely before `a`, each in the seven-step source
order. -/
theorem sweep_two_scenario (w : World) (r a b : ℕ)
    (hm : w.marked = [b, a]) (hab : a ≠ b) (har : a ≠ r) (hbr : b ≠ r)
    (hva : isValid w a) (hvb : isValid w b) (hvr : isValid w r)
    (hpa : (getObj w a).parent = some r) (hpb : (getObj w b).parent = some r)
    (hca : (getObj w a).children = []) (hcb : (getObj w b).children = []) :
    (delayedDestroy w).2 =
      [Event.beforeDestroy b, Event.detachParent b, Event.releaseBackground b,
       Event.releaseMesh b, Event.invalidated b, Event.afterDestroy b, Event.freed b,
       Event.beforeDestroy a, Event.detachParent a, Event.releaseBackground a,
       Event.releaseMesh a, Event.invalidated a, Event.afterDestroy a, Event.freed a] := by
  have hvb1 : isValid w b := hvb
  rw [delayedDestroy_cons_valid_snd w b [a] hm hvb1]
  set w1 : World := { w with marked := [a] } with hw1
  have hgw1 : ∀ j, getObj w1 j = getObj w j := fun j => rfl
  have hvw1 : ∀ j, isValid w1 j ↔ isValid w j := fun j => Iff.rfl
  have htb : teardownTrace w1 b = [Event.beforeDestroy b, Event.detachParent b,
      Event.releaseBackground b, Event.releaseMesh b, Event.invalidated b,
      Event.afterDestroy b, Event.freed b] :=
    teardown_scenario_trace w1 b r hvb hbr (by rw [hgw1]; exact hpb) hvr
      (by rw [hgw1]; exact hcb)
  rw [htb]
  set w2 : World := teardownStep w1 b with hw2
  have hm2 : w2.marked = [a] :=
    teardown_scenario_marked w1 b r hvb hbr (by rw [hgw1]; exact hpb) hvr
      (by rw [hgw1]; exact hcb)
  have hinv2 : w2.invalid = insert b w.invalid := teardownStep_invalid w1 b
  have hva2 : isValid w2 a := by
    show a ∉ w2.invalid
    rw [hinv2]
    intro hcon
    rcases Finset.mem_insert.mp hcon with rfl | hcon2
    · exact hab rfl
    · exact hva hcon2
  have hvr2 : isValid w2 r := by
    show r ∉ w2.invalid
    rw [hinv2]
    intro hcon
    rcases Finset.mem_insert.mp hcon with heq | hcon2
    · exact hbr heq.symm
    · exact hvr hcon2
  have hga2 : getObj w2 a = getObj w a :=
    teardownStep_getObj_other w1 b r a hvb hbr (by rw [hgw1]; exact hpb) hvr
      (by rw [hgw1]; exact hcb) (fun hh => hab hh) har
  rw [delayedDestroy_cons_valid_snd w2 a [] hm2 hva2]
  have hgw2m : ∀ j, getObj ({ w2 with marked := ([] : List ℕ) } : World) j = getObj w2 j :=
    fun j => rfl
  have hta : teardownTrace ({ w2 with marked := ([] : List ℕ) } : World) a =
      [Event.beforeDestroy a, Event.detachParent a, Event.releaseBackground a,
       Event.releaseMesh a, Event.invalidated a, Event.afterDestroy a, Event.freed a] :=
    teardown_scenario_trace _ a r hva2 har (by rw [hgw2m, hga2]; exact hpa) hvr2
      (by rw [hgw2m, hga2]; exact hca)
  rw [hta]
  have hm3 : (teardownStep ({ w2 with marked := ([] : List ℕ) } : World) a).marked = [] :=
    teardown_scenario_marked _ a r hva2 har (by rw [hgw2m, hga2]; exact hpa) hvr2
      (by rw [hgw2m, hga2]; exact hca)
  rw [show (delayedDestroy (teardownStep ({ w2 with marked := ([] : List ℕ) } : World) a)).2 =
      ([] : List Event) from by rw [delayedDestroy_nil _ hm3]]
  rfl

/-- C3 (amended): when the destruction sweep runs, pending entities are
processed in REVERSE enqueue order (the pending container is a stack: last
requested, first torn down), and for each one the sweep performs, in this
order: pre-teardown hook, detach from parent, cascade a destroy request to
every remaining child (none here), release the visual-fill collaborator and
the owned Shape, mark the entity invalid, post-teardown hook, release the
entity's own storage. -/
theorem sweep_lifo_and_step_order :
    ∀ w : World, ∀ r a b : ℕ,
      w.marked = [b, a] → a ≠ b → a ≠ r → b ≠ r →
      isValid w a → isValid w b → isValid w r →
      (getObj w a).parent = some r → (getObj w b).parent = some r →
      (getObj w a).children = [] → (getObj w b).children = [] →
      (delayedDestroy w).2 =
        [Event.beforeDestroy b, Event.detachParent b, Event.releaseBackground b,
         Event.releaseMesh b, Event.invalidated b, Event.afterDestroy b, Event.freed b,
         Event.beforeDestroy a, Event.detachParent a, Event.releaseBackground a,
         Event.releaseMesh a, Event.invalidated a, Event.afterDestroy a, Event.freed a] :=
  fun w r a b hm hab har hbr hva hvb hvr hpa hpb hca hcb =>
    sweep_two_scenario w r a b hm hab har hbr hva hvb hvr hpa hpb hca hcb

/-- A freshly constructed child entity attached to root 0. -/
def objChild : Obj :=
  { display := true, children := [], parent := some 0, collider := none,
    position := 0, speed := 0, acceleration := 0 }

/-- Root entity owning children 1 and 2. -/
def objRoot : Obj :=
  { display := true, children := [1, 2], parent := none, collider := none,
    position := 0, speed := 0, acceleration := 0 }

/-- Concrete world for the sweep scenarios: a root (0) with two children
(1 and 2), empty registry, empty pending stack. -/
def wBase : World :=
  { objs := [(0, objRoot), (1, objChild), (2, objChild)], invalid := ∅,
    marked := [], destroyShared := true }

/-- Destruction requested on entity 1 first, then on entity 2. -/
def wTwoMarked : World := destroy (destroy wBase 1) 2

theorem wTwoMarked_valid (k : ℕ) : isValid wTwoMarked k := by
  show k ∉ (∅ : Finset ℕ)
  simp

/-- C3 counterexample: entity 1's destruction was requested before entity
2's, yet the sweep frees 2 first — the pending container is a stack (LIFO),
not a first-requested-first-torn-down queue. -/
theorem sweep_not_enqueue_order :
    wTwoMarked.marked = [2, 1] ∧
    (delayedDestroy wTwoMarked).2.indexOf (Event.freed 2) <
      (delayedDestroy wTwoMarked).2.indexOf (Event.freed 1) := by
  refine ⟨rfl, ?_⟩
  rw [sweep_two_scenario wTwoMarked 0 1 2 rfl (by decide) (by decide) (by decide)
    (wTwoMarked_valid 1) (wTwoMarked_valid 2) (wTwoMarked_valid 0) rfl rfl rfl rfl]
  decide

/-- Witness for C3 (amended): the LIFO/step-order statement applied to the
concrete two-children world, discharging every hypothesis. -/
theorem sweep_lifo_and_step_order_witness :
    wTwoMarked.marked = [2, 1] ∧ (1 : ℕ) ≠ 2 ∧ (1 : ℕ) ≠ 0 ∧ (2 : ℕ) ≠ 0 ∧
    isValid wTwoMarked 1 ∧ isValid wTwoMarked 2 ∧ isValid wTwoMarked 0 ∧
    (getObj wTwoMarked 1).parent = some 0 ∧ (getObj wTwoMarked 2).parent = some 0 ∧
    (getObj wTwoMarked 1).children = [] ∧ (getObj wTwoMarked 2).children = [] ∧
    (delayedDestroy wTwoMarked).2 =
      [Event.beforeDestroy 2, Event.detachParent 2, Event.releaseBackground 2,
       Event.releaseMesh 2, Event.invalidated 2, Event.afterDestroy 2, Event.freed 2,
       Event.beforeDestroy 1, Event.detachParent 1, Event.releaseBackground 1,
       Event.releaseMesh 1, Event.invalidated 1, Event.afterDestroy 1, Event.freed 1] :=
  ⟨rfl, by decide, by decide, by decide, wTwoMarked_valid 1, wTwoMarked_valid 2,
    wTwoMarked_valid 0, rfl, rfl, rfl, rfl,
    sweep_lifo_and_step_order wTwoMarked 0 1 2 rfl (by decide) (by decide) (by decide)
      (wTwoMarked_valid 1) (wTwoMarked_valid 2) (wTwoMarked_valid 0) rfl rfl rfl rfl⟩

/-- C4 (amended): requesting destruction of an already-pending entity is NOT
a no-op on the pending list — each request pushes another stack entry — but
the entity is still freed at most once, because the sweep's validity check
skips entries whose entity the registry already holds, so no double-free
occurs. -/
theorem destroy_double_enqueue_single_free :
    ∀ w : World, ∀ i : ℕ,
      (destroy (destroy w i) i).marked = i :: i :: w.marked ∧
      (∀ j, ((delayedDestroy (destroy (destroy w i) i)).2).count (Event.freed j) ≤ 1) :=
  fun w i => ⟨rfl, fun j => delayedDestroy_count_freed_le_one _ j⟩

/-- C4 counterexample: a second destroy request on the same entity enqueues
it a second time on the process-wide pending list, contradicting the claimed
no-op. -/
theorem destroy_double_enqueue_counterexample :
    (destroy (destroy wBase 1) 1).marked = [1, 1] ∧
    (destroy wBase 1).marked = [1] ∧
    ([1, 1] : List ℕ) ≠ [1] :=
  ⟨rfl, rfl, by decide⟩

/-- C10: constructing an entity always makes it valid: the constructor erases
the new identity from the process-wide invalid registry, so the cheap
validity test holds immediately after construction, even when the identity
previously belonged to a freed entity the registry still recorded as
invalid. -/
theorem construct_makes_valid :
    ∀ w : World, ∀ i : ℕ, ∀ pos : V3, ∀ disp : Bool, ∀ spd acc : V3,
      isValid (constructObj w i pos disp spd acc) i := by
  intro w i pos disp spd acc
  show i ∉ w.invalid.erase i
  exact Finset.not_mem_erase i w.invalid

/-- C9 (amended): after `addChild(p, c)` on valid allocated entities, the
child's parent back-reference names `p` and `c` is in `p`'s child set; but a
previously attached parent's child set is not updated by `addChild`, so an
entity can sit in two child sets at once, and cycles are constructible by
explicit attachment — the claimed at-most-one-parent/acyclicity invariant
does not hold (see the counterexample). -/
theorem addChild_local_postcondition :
    ∀ w : World, ∀ p c : ℕ, isValid w p → isValid w c →
      c ∈ w.objs.map Prod.fst → p ∈ w.objs.map Prod.fst →
      (getObj (addChild w p c) c).parent = some p ∧
      c ∈ (getObj (addChild w p c) p).children := by
  intro w p c hp hc hck hpk
  unfold addChild
  rw [if_pos ⟨hp, hc⟩]
  constructor
  · have houter := getObj_setObj_field (fun o => o.parent)
      (setObj w c fun o => { o with parent := some p }) p c
      (fun o => { o with children := o.children.insert c }) (fun o => rfl)
    refine houter.trans ?_
    rw [getObj_setObj_self]
    rw [if_pos hck]
  · rw [getObj_setObj_self]
    have hpk2 : p ∈ (setObj w c fun o => { o with parent := some p }).objs.map Prod.fst := by
      rw [setObj_keys]
      exact hpk
    rw [if_pos hpk2]
    exact List.mem_insert_self c _

/-- Fresh unattached entity used by the tree-invariant counterexample. -/
def freshObj : Obj :=
  { display := true, children := [], parent := none, collider := none,
    position := 0, speed := 0, acceleration := 0 }

/-- Three fresh entities, none attached to any parent. -/
def wThree : World :=
  { objs := [(0, freshObj), (1, freshObj), (2, freshObj)], invalid := ∅,
    marked := [], destroyShared := true }

/-- Witness for C9 (amended): the addChild postcondition applied at the
concrete three-entity world. -/
theorem addChild_local_postcondition_witness :
    isValid wThree 0 ∧ isValid wThree 2 ∧
    (2 : ℕ) ∈ wThree.objs.map Prod.fst ∧ (0 : ℕ) ∈ wThree.objs.map Prod.fst ∧
    ((getObj (addChild wThree 0 2) 2).parent = some 0 ∧
      (2 : ℕ) ∈ (getObj (addChild wThree 0 2) 0).children) :=
  ⟨by show (0:ℕ) ∉ (∅ : Finset ℕ); simp, by show (2:ℕ) ∉ (∅ : Finset ℕ); simp,
    by decide, by decide,
    addChild_local_postcondition wThree 0 2
      (by show (0:ℕ) ∉ (∅ : Finset ℕ); simp) (by show (2:ℕ) ∉ (∅ : Finset ℕ); simp)
      (by decide) (by decide)⟩

/-- C9 counterexample: two `addChild` calls leave entity 2 in the child sets
of BOTH 0 and 1 (so an entity is not contained in the child set of at most
one entity), and two other calls make 0 and 1 each other's children — a
cycle; the parent/child relation is neither single-parent nor acyclic. -/
theorem entity_tree_invariant_counterexample :
    (getObj (addChild (addChild wThree 0 2) 1 2) 0).children = [2] ∧
    (getObj (addChild (addChild wThree 0 2) 1 2) 1).children = [2] ∧
    (getObj (addChild (addChild wThree 0 2) 1 2) 2).parent = some 1 ∧
    (0 : ℕ) ≠ 1 ∧
    (getObj (addChild (addChild wThree 0 1) 1 0) 0).children = [1] ∧
    (getObj (addChild (addChild wThree 0 1) 1 0) 1).children = [0] :=
  ⟨rfl, rfl, rfl, by decide, rfl, rfl⟩

/-- One-entity world for the C2 witness: entity 0 constructed on an empty
session, shared flag still in its initial true state. -/
def w0c : World :=
  constructObj { objs := [], invalid := ∅, marked := [], destroyShared := true } 0 0 true 0 0

/-- Traversal result of the witness update call on entity 0. -/
def w3c : World := integrate { w0c with destroyShared := false } 0

theorem derivC2 : UpdateSem (Sum.inl 0) w0c (finishWorld w0c.destroyShared w3c)
    ((Event.integrated 0 :: ([] : List Event)) ++ finishEvents w0c.destroyShared w3c) := by
  refine UpdateSem.updValid 0 w0c w3c [] ?_ ?_
  · show (0 : ℕ) ∉ w0c.invalid
    show (0 : ℕ) ∉ (∅ : Finset ℕ).erase 0
    simp
  · show UpdateSem (Sum.inr (getObj w0c 0).children) w3c w3c []
    rw [show (getObj w0c 0).children = [] from rfl]
    exact UpdateSem.iterNil w3c

/-- Witness for C2: the outermost-call clause of the sweep theorem applied to
a concrete derivation on a one-entity world with the shared flag true. -/
theorem sweep_only_at_outermost_witness :
    UpdateSem (Sum.inl 0) w0c (finishWorld w0c.destroyShared w3c)
      ((Event.integrated 0 :: ([] : List Event)) ++ finishEvents w0c.destroyShared w3c) ∧
    w0c.destroyShared = true ∧
    (∃ wb : World, ∃ eb : List Event,
      (∀ e ∈ eb, ∃ k, e = Event.integrated k) ∧
      wb.marked = w0c.marked ∧ wb.invalid = w0c.invalid ∧
      finishWorld w0c.destroyShared w3c = (delayedDestroy { wb with destroyShared := true }).1 ∧
      (Event.integrated 0 :: ([] : List Event)) ++ finishEvents w0c.destroyShared w3c =
        eb ++ (delayedDestroy { wb with destroyShared := true }).2 ∧
      (∀ j, ((delayedDestroy { wb with destroyShared := true }).2).count (Event.freed j) ≤ 1) ∧
      (∀ j, j ∈ w0c.marked → isValid w0c j →
        ((delayedDestroy { wb with destroyShared := true }).2).count (Event.freed j) = 1)) :=
  ⟨derivC2, rfl, (sweep_only_at_outermost 0 w0c _ _ derivC2).2 rfl⟩

/-- Embeds `Object::collides`: the collider is non-null. -/
def collides (w : World) (i : ℕ) : Bool := ((getObj w i).collider).isSome

/-- Embeds the Object-level pairwise test `Object::detectCollision`: the
source returns false unconditionally (the member is not virtual and never
consults the colliders). -/
def objectDetectCollision (w : World) (i j : ℕ) : Bool := false

/-- Embeds the pair enumeration of `Object::detectCollisions`: each child in
iteration order that is valid and has a collider is tested against every
LATER child; the later child's validity and collider are not examined. -/
def testedPairs (w : World) : List ℕ → List (ℕ × ℕ)
  | [] => []
  | c :: rest =>
      (if isValid w c ∧ collides w c then rest.map (fun n => (c, n)) else []) ++
        testedPairs w rest

/-- The tested pairs whose pairwise test returned true, firing the collision
hook on both members. -/
def collisionHookPairs (w : World) (l : List ℕ) : List (ℕ × ℕ) :=
  (testedPairs w l).filter (fun e => objectDetectCollision w e.1 e.2)

theorem testedPairs_first_mem {w : World} {l : List ℕ} {a b : ℕ}
    (h : (a, b) ∈ testedPairs w l) : a ∈ l := by
  induction l with
  | nil => cases h
  | cons c rest ih =>
      rcases List.mem_append.mp h with hm | hm
      · by_cases hg : isValid w c ∧ collides w c
        · rw [if_pos hg] at hm
          obtain ⟨n, -, hn⟩ := List.mem_map.mp hm
          injection hn with h1 h2
          rw [← h1]
          exact List.mem_cons_self c rest
        · rw [if_neg hg] at hm
          cases hm
      · exact List.mem_cons_of_mem c (ih hm)

theorem testedPairs_mem (w : World) (l : List ℕ) (a b : ℕ) :
    (a, b) ∈ testedPairs w l ↔
      ([a, b].Sublist l ∧ isValid w a ∧ collides w a) := by
  induction l with
  | nil =>
      constructor
      · intro h
        cases h
      · rintro ⟨hsub, -⟩
        cases hsub
  | cons c rest ih =>
      constructor
      · intro h
        rcases List.mem_append.mp h with hm | hm
        · by_cases hg : isValid w c ∧ collides w c
          · rw [if_pos hg] at hm
            obtain ⟨n, hn, heq⟩ := List.mem_map.mp hm
            injection heq with h1 h2
            subst h1
            subst h2
            exact ⟨List.cons_sublist_cons.mpr (List.singleton_sublist.mpr hn), hg.1, hg.2⟩
          · rw [if_neg hg] at hm
            cases hm
        · obtain ⟨hsub, hv, hc2⟩ := ih.mp hm
          exact ⟨hsub.trans (List.sublist_cons_self c rest), hv, hc2⟩
      · rintro ⟨hsub, hv, hc2⟩
        rcases List.sublist_cons_iff.mp hsub with hsub2 | ⟨l2, heq, hsub2⟩
        · exact List.mem_append.mpr (Or.inr (ih.mpr ⟨hsub2, hv, hc2⟩))
        · injection heq with h1 h2
          subst h1
          refine List.mem_append.mpr (Or.inl ?_)
          rw [if_pos ⟨hv, hc2⟩]
          refine List.mem_map.mpr ⟨b, ?_, rfl⟩
          rw [← h2] at hsub2
          exact List.singleton_sublist.mp hsub2

theorem testedPairs_nodup (w : World) (l : List ℕ) (h : l.Nodup) :
    (testedPairs w l).Nodup := by
  induction l with
  | nil => exact List.nodup_nil
  | cons c rest ih =>
      obtain ⟨hc, hrest⟩ := List.nodup_cons.mp h
      refine List.Nodup.append ?_ (ih hrest) ?_
      · by_cases hg : isValid w c ∧ collides w c
        · rw [if_pos hg]
          exact hrest.map (fun n1 n2 hn => by injection hn)
        · rw [if_neg hg]
          exact List.nodup_nil
      · intro pr hpr1 hpr2
        obtain ⟨a, b⟩ := pr
        have ha : a ∈ rest := testedPairs_first_mem hpr2
        by_cases hg : isValid w c ∧ collides w c
        · rw [if_pos hg] at hpr1
          obtain ⟨n, -, hn⟩ := List.mem_map.mp hpr1
          injection hn with h1 h2
          rw [← h1] at ha
          exact hc ha
        · rw [if_neg hg] at hpr1
          cases hpr1

/-- C7 (amended): `detectCollisions` enumerates exactly the ordered pairs
(first before second in iteration order) of the caller's children whose FIRST
member is live and has a non-null collider — the second member's liveness and
collider are not checked; each such pair is tested once (no duplicates when
the child set has no duplicates); the Object-level pairwise test invoked on
each pair returns false unconditionally in this code, so the collision hooks,
which fire on both members exactly when the test returns true, never fire. -/
theorem detectCollisions_enumeration :
    (∀ w : World, ∀ l : List ℕ, ∀ a b : ℕ,
      ((a, b) ∈ testedPairs w l ↔
        ([a, b].Sublist l ∧ isValid w a ∧ collides w a))) ∧
    (∀ w : World, ∀ i j : ℕ, objectDetectCollision w i j = false) ∧
    (∀ w : World, ∀ l : List ℕ, collisionHookPairs w l = []) ∧
    (∀ w : World, ∀ l : List ℕ, l.Nodup → (testedPairs w l).Nodup) := by
  refine ⟨testedPairs_mem, fun w i j => rfl, ?_, testedPairs_nodup⟩
  intro w l
  unfold collisionHookPairs
  simp [objectDetectCollision]

/-- Witness for C7 (amended): the no-duplicates clause applied to a concrete
duplicate-free child list. -/
theorem detectCollisions_enumeration_witness :
    ([1, 2] : List ℕ).Nodup ∧ (testedPairs wBase [1, 2]).Nodup :=
  ⟨by decide, detectCollisions_enumeration.2.2.2 wBase [1, 2] (by decide)⟩

/-- Child 1 carries a collider mesh; used by the C7 counterexample. -/
def objColl : Obj :=
  { display := true, children := [], parent := some 0, collider := some (Engine.Mesh.base 0),
    position := 0, speed := 0, acceleration := 0 }

/-- World for the C7 counterexample: child 1 valid with a collider, child 2
valid but with a null collider. -/
def wC7 : World :=
  { objs := [(1, objColl), (2, freshObj)], invalid := ∅, marked := [],
    destroyShared := true }

/-- C7 counterexample: the pair (1, 2) is tested although child 2 has no
collider — the enumeration does not require both members to be live and
collidable, only the first. -/
theorem detectCollisions_counterexample :
    testedPairs wC7 [1, 2] = [(1, 2)] ∧ (getObj wC7 2).collider = none :=
  ⟨rfl, rfl⟩

end Lifecycle

end
